import Mathlib

/-!
# Animation curves and animations of package fyne (animation.go)

A shallow embedding of `animation.go`.

* A finite `float32`/`float64` value is an element of a linear ordered field `K`
  (exact arithmetic; the conversions `float64(..)` and `float32(..)` are the identity).
  The only operation of the file that can leave the finite numbers in exact
  arithmetic is `math.Sqrt` on a negative argument; its result `NaN` is `none`.
  Rounding and overflow of `float32` and `float64` are not modelled.
* Go's package `math` is not part of the repository: its functions are the
  parameter `GoMath K`, and `realMath` is their reading over the real numbers.
* A local variable that is assigned again (`val -= 1`) is a shadowing `let`.
-/

namespace Fyne

/-- The functions and constants of Go's package `math` that animation.go calls.
`Sqrt` answers `none` when Go answers `NaN`. -/
structure GoMath (K : Type) where
  Sqrt : K → Option K
  Pow : K → K → K
  Sin : K → K
  Cos : K → K
  Pi : K

/-- Package `math` over the real numbers: `Sqrt(x)` is `NaN` for `x < 0`
(documented special case of `math.Sqrt`), `Pow(x, y)` is `x ^ y`. -/
noncomputable def realMath : GoMath ℝ where
  Sqrt := fun x => if 0 ≤ x then some (Real.sqrt x) else none
  Pow := fun x y => x ^ y
  Sin := Real.sin
  Cos := Real.cos
  Pi := Real.pi

section Curves

variable {K : Type} [LinearOrderedField K]

/-- The type `AnimationCurve func(float32) float32`: finite input, result finite or `NaN`. -/
abbrev AnimationCurve (K : Type) := K → Option K

/-- The constant `AnimationRepeatForever = -1`. -/
def AnimationRepeatForever : Int := -1

def animationEaseIn (val : K) : K :=
  val * val

def animationEaseInOut (val : K) : K :=
  if val ≤ 0.5 then
    val * val * 2
  else
    -1 + (4 - val * 2) * val

def animationEaseOut (val : K) : K :=
  val * (2 - val)

def animationLinear (val : K) : K :=
  val

-- Back
def animationBackEaseIn (val : K) : K :=
  let s : K := 1.70158
  val * val * ((s + 1) * val - s)

def animationBackEaseOut (val : K) : K :=
  let s : K := 1.70158
  let val := val - 1
  val * val * ((s + 1) * val + s) + 1

def animationBackEaseInOut (val : K) : K :=
  let s : K := 1.70158
  let r : K := 1.525
  let val := val * 2
  if val < 1 then
    0.5 * (val * val * ((s * r + 1) * val - s * r))
  else
    let val := val - 2
    0.5 * (val * val * ((s * r + 1) * val + s * r) + 2)

-- Bounce
def animationBounceEaseOut (val : K) : K :=
  let s : K := 7.5625
  let r : K := 2.75
  if val < 1 / r then
    s * val * val
  else if val < 2 / r then
    let val := val - 1.5 / r
    s * val * val + 0.75
  else if val < 2.5 / r then
    let val := val - 2.25 / r
    s * val * val + 0.9375
  else
    let val := val - 2.625 / r
    s * val * val + 0.984375

def animationBounceEaseIn (val : K) : K :=
  1 - animationBounceEaseOut (1 - val)

def animationBounceEaseInOut (val : K) : K :=
  let val := val * 2
  if val < 1 then
    0.5 * animationBounceEaseIn val
  else
    0.5 * animationBounceEaseOut (val - 1) + 0.5

-- Circular
def animationCircularEaseIn (M : GoMath K) (val : K) : Option K :=
  let val2 := val
  (M.Sqrt (1 - val2 * val2)).map fun q => -(q - 1)

def animationCircularEaseOut (M : GoMath K) (val : K) : Option K :=
  let val2 := val
  M.Sqrt (1 - (val2 - 1) * (val2 - 1))

def animationCircularEaseInOut (M : GoMath K) (val : K) : Option K :=
  let val := val * 2
  let val2 := val
  if val2 < 1 then
    (M.Sqrt (1 - val2 * val2)).map fun q => -0.5 * (q - 1)
  else
    let val2 := val2 - 2
    (M.Sqrt (1 - val2 * val2)).map fun q => 0.5 * (q + 1)

-- Cubic
def animationCubicEaseIn (val : K) : K :=
  val * val * val

def animationCubicEaseOut (val : K) : K :=
  let val := val - 1
  val * val * val + 1

def animationCubicEaseInOut (val : K) : K :=
  if val < 0.5 then
    4 * val * val * val
  else
    let val := val - 1
    4 * val * val * val + 1

-- Elastic
def animationElasticEaseIn (M : GoMath K) (val : K) : K :=
  let a : K := 1
  let p : K := 0.3
  let s : K := p / 4
  if val = 0 ∨ val = 1 then
    val
  else
    let val := val - 1
    let val2 := val;
    -(a * M.Pow 2 (10 * val2) * M.Sin ((val2 - s) * (2 * M.Pi) / p))

def animationElasticEaseOut (M : GoMath K) (val : K) : K :=
  let a : K := 1
  let p : K := 0.3
  let s : K := p / 4
  if val = 0 ∨ val = 1 then
    val
  else
    let val2 := val
    a * M.Pow 2 (-10 * val2) * M.Sin ((val2 - s) * (2 * M.Pi) / p) + 1

def animationElasticEaseInOut (M : GoMath K) (val : K) : K :=
  let a : K := 1
  let p : K := 0.3
  let s : K := p / 4
  if val = 0 ∨ val = 1 then
    val
  else
    let val := val * 2 - 1
    let val2 := val
    if val < 0 then
      -0.5 * (a * M.Pow 2 (10 * val2) * M.Sin ((val2 - s * 1.5) * (2 * M.Pi) / (p * 1.5)))
    else
      0.5 * a * M.Pow 2 (-10 * val2) * M.Sin ((val2 - s * 1.5) * (2 * M.Pi) / (p * 1.5)) + 1

-- Exponential
def animationExponentialEaseIn (M : GoMath K) (val : K) : K :=
  if val = 0 then
    0
  else
    let val2 := val
    M.Pow 2 (10 * (val2 - 1))

def animationExponentialEaseOut (M : GoMath K) (val : K) : K :=
  if val = 1 then
    1
  else
    let val2 := val
    1 - M.Pow 2 (-10 * val2)

def animationExponentialEaseInOut (M : GoMath K) (val : K) : K :=
  if val = 0 ∨ val = 1 then
    val
  else
    let val := val * 2 - 1
    let val2 := val
    if 0 > val then
      0.5 * M.Pow 2 (10 * val2)
    else
      1 - 0.5 * M.Pow 2 (-10 * val2)

-- Quadratic
def animationQuadaticEaseIn (val : K) : K :=
  val * val

def animationQuadaticEaseOut (val : K) : K :=
  -val * (val - 2)

def animationQuadaticEaseInOut (val : K) : K :=
  if val < 0.5 then
    2 * val * val
  else
    -2 * val * (val - 2) - 1

-- Quartic
def animationQuarticEaseIn (val : K) : K :=
  val * val * val * val

def animationQuarticEaseOut (val : K) : K :=
  let val := val - 1
  1 - val * val * val * val

def animationQuarticEaseInOut (val : K) : K :=
  if val < 0.5 then
    8 * val * val * val * val
  else
    let val := val - 1;
    -8 * val * val * val * val + 1

-- Quintic
def animationQuinticEaseIn (val : K) : K :=
  val * val * val * val * val

def animationQuinticEaseOut (val : K) : K :=
  let val := val - 1
  1 + val * val * val * val * val

def animationQuinticEaseInOut (val : K) : K :=
  if val < 0.5 then
    16 * val * val * val * val * val
  else
    let val := val - 1
    16 * val * val * val * val * val + 1

-- Sine
def animationSineEaseIn (M : GoMath K) (val : K) : K :=
  let val2 := val
  1 - M.Cos (val2 * (M.Pi / 2))

def animationSineEaseOut (M : GoMath K) (val : K) : K :=
  let val2 := val
  M.Sin (val2 * (M.Pi / 2))

def animationSineEaseInOut (M : GoMath K) (val : K) : K :=
  let val2 := val;
  -0.5 * (M.Cos (val2 * M.Pi) - 1)

/-- A Go function that always returns a finite number, as an `AnimationCurve`. -/
def finiteCurve (f : K → K) : AnimationCurve K :=
  fun val => some (f val)

/-! The exported curve variables (`var ( AnimationEaseInOut = animationEaseInOut ... )`). -/

def AnimationEaseInOut : AnimationCurve K := finiteCurve animationEaseInOut
def AnimationEaseIn : AnimationCurve K := finiteCurve animationEaseIn
def AnimationEaseOut : AnimationCurve K := finiteCurve animationEaseOut
def AnimationLinear : AnimationCurve K := finiteCurve animationLinear

def AnimationBackEaseInOut : AnimationCurve K := finiteCurve animationBackEaseInOut
def AnimationBackEaseIn : AnimationCurve K := finiteCurve animationBackEaseIn
def AnimationBackEaseOut : AnimationCurve K := finiteCurve animationBackEaseOut

def AnimationBounceEaseInOut : AnimationCurve K := finiteCurve animationBounceEaseInOut
def AnimationBounceEaseIn : AnimationCurve K := finiteCurve animationBounceEaseIn
def AnimationBounceEaseOut : AnimationCurve K := finiteCurve animationBounceEaseOut

def AnimationCircularEaseInOut (M : GoMath K) : AnimationCurve K := animationCircularEaseInOut M
def AnimationCircularEaseIn (M : GoMath K) : AnimationCurve K := animationCircularEaseIn M
def AnimationCircularEaseOut (M : GoMath K) : AnimationCurve K := animationCircularEaseOut M

def AnimationCubicEaseInOut : AnimationCurve K := finiteCurve animationCubicEaseInOut
def AnimationCubicEaseIn : AnimationCurve K := finiteCurve animationCubicEaseIn
def AnimationCubicEaseOut : AnimationCurve K := finiteCurve animationCubicEaseOut

def AnimationElasticEaseInOut (M : GoMath K) : AnimationCurve K :=
  finiteCurve (animationElasticEaseInOut M)
def AnimationElasticEaseIn (M : GoMath K) : AnimationCurve K :=
  finiteCurve (animationElasticEaseIn M)
def AnimationElasticEaseOut (M : GoMath K) : AnimationCurve K :=
  finiteCurve (animationElasticEaseOut M)

def AnimationExponentialEaseInOut (M : GoMath K) : AnimationCurve K :=
  finiteCurve (animationExponentialEaseInOut M)
def AnimationExponentialEaseIn (M : GoMath K) : AnimationCurve K :=
  finiteCurve (animationExponentialEaseIn M)
def AnimationExponentialEaseOut (M : GoMath K) : AnimationCurve K :=
  finiteCurve (animationExponentialEaseOut M)

def AnimationQuadraticEaseInOut : AnimationCurve K := finiteCurve animationQuadaticEaseInOut
def AnimationQuadraticEaseIn : AnimationCurve K := finiteCurve animationQuadaticEaseIn
def AnimationQuadraticEaseOut : AnimationCurve K := finiteCurve animationQuadaticEaseOut

def AnimationQuarticEaseInOut : AnimationCurve K := finiteCurve animationQuarticEaseInOut
def AnimationQuarticEaseIn : AnimationCurve K := finiteCurve animationQuarticEaseIn
def AnimationQuarticEaseOut : AnimationCurve K := finiteCurve animationQuarticEaseOut

def AnimationQuinticEaseInOut : AnimationCurve K := finiteCurve animationQuinticEaseInOut
def AnimationQuinticEaseIn : AnimationCurve K := finiteCurve animationQuinticEaseIn
def AnimationQuinticEaseOut : AnimationCurve K := finiteCurve animationQuinticEaseOut

def AnimationSineEaseInOut (M : GoMath K) : AnimationCurve K :=
  finiteCurve (animationSineEaseInOut M)
def AnimationSineEaseIn (M : GoMath K) : AnimationCurve K :=
  finiteCurve (animationSineEaseIn M)
def AnimationSineEaseOut (M : GoMath K) : AnimationCurve K :=
  finiteCurve (animationSineEaseOut M)

/-- The catalog: every exported curve variable of animation.go, in source order. -/
def catalog (M : GoMath K) : List (AnimationCurve K) :=
  [AnimationEaseInOut, AnimationEaseIn, AnimationEaseOut, AnimationLinear,
   AnimationBackEaseInOut, AnimationBackEaseIn, AnimationBackEaseOut,
   AnimationBounceEaseInOut, AnimationBounceEaseIn, AnimationBounceEaseOut,
   AnimationCircularEaseInOut M, AnimationCircularEaseIn M, AnimationCircularEaseOut M,
   AnimationCubicEaseInOut, AnimationCubicEaseIn, AnimationCubicEaseOut,
   AnimationElasticEaseInOut M, AnimationElasticEaseIn M, AnimationElasticEaseOut M,
   AnimationExponentialEaseInOut M, AnimationExponentialEaseIn M, AnimationExponentialEaseOut M,
   AnimationQuadraticEaseInOut, AnimationQuadraticEaseIn, AnimationQuadraticEaseOut,
   AnimationQuarticEaseInOut, AnimationQuarticEaseIn, AnimationQuarticEaseOut,
   AnimationQuinticEaseInOut, AnimationQuinticEaseIn, AnimationQuinticEaseOut,
   AnimationSineEaseInOut M, AnimationSineEaseIn M, AnimationSineEaseOut M]

/-- The EaseInOut curve of each of the eleven families (Linear has none). -/
def easeInOutCurves (M : GoMath K) : List (AnimationCurve K) :=
  [AnimationEaseInOut, AnimationBackEaseInOut, AnimationBounceEaseInOut,
   AnimationCircularEaseInOut M, AnimationCubicEaseInOut, AnimationElasticEaseInOut M,
   AnimationExponentialEaseInOut M, AnimationQuadraticEaseInOut, AnimationQuarticEaseInOut,
   AnimationQuinticEaseInOut, AnimationSineEaseInOut M]

/-- The non-overshooting polynomial curves: Linear, the Ease family and the In, Out and
InOut curves of the Quadratic, Cubic, Quartic and Quintic families. -/
def polynomialCurves : List (K → K) :=
  [animationLinear, animationEaseIn, animationEaseOut, animationEaseInOut,
   animationQuadaticEaseIn, animationQuadaticEaseOut, animationQuadaticEaseInOut,
   animationCubicEaseIn, animationCubicEaseOut, animationCubicEaseInOut,
   animationQuarticEaseIn, animationQuarticEaseOut, animationQuarticEaseInOut,
   animationQuinticEaseIn, animationQuinticEaseOut, animationQuinticEaseInOut]

end Curves

section Animations

/-- The struct `Animation`. `K` is the type of finite floats, `T` the type of
`func(float32)` values; `time.Duration` is a count of nanoseconds. A field left
out of a composite literal has Go's zero value: `false`, `nil` (`none`), `0`. -/
structure Animation (K T : Type) where
  AutoReverse : Bool := false
  Curve : Option (AnimationCurve K) := none
  Duration : Int := 0
  RepeatCount : Int := 0
  Tick : T

/-- The program state the stateful operations run in: the allocated `Animation`
values (a `*Animation` is an index into `heap`) and the state of the driver
`CurrentApp().Driver()`, which is not part of animation.go and whose type `D`
is a parameter. -/
structure App (K T D : Type) where
  heap : List (Animation K T)
  driver : D

/-- The function `NewAnimation(d time.Duration, fn func(float32)) *Animation`:
allocates `Animation{Duration: d, Tick: fn}` and returns its address. -/
def NewAnimation {K T D : Type} (d : Int) (fn : T) (app : App K T D) : Nat × App K T D :=
  (app.heap.length, { app with heap := app.heap ++ [{ Duration := d, Tick := fn }] })

/-- Modelled from the spec: the curve the driver applies to the progress of an
animation (the driver is not in the source): "`curve`: a Curve; defaults to the
ease-in-out curve if unset". -/
def curveInUse {K T : Type} [LinearOrderedField K] (a : Animation K T) : AnimationCurve K :=
  match a.Curve with
  | some c => c
  | none => AnimationEaseInOut

/-- Modelled from the spec: the driver collaborator `CurrentApp().Driver()`, whose
implementation is not part of animation.go. "The registration set is owned by the
driver", which "holds only a non-owning registration": `StartAnimation` and
`StopAnimation` take the state of the driver and the address of an animation to the next
state of the driver. -/
structure Driver (D : Type) where
  StartAnimation : D → Nat → D
  StopAnimation : D → Nat → D

/-- The method `func (a *Animation) Start()`: `CurrentApp().Driver().StartAnimation(a)`. -/
def Animation.Start {K T D : Type} (drv : Driver D) (a : Nat) (app : App K T D) : App K T D :=
  { app with driver := drv.StartAnimation app.driver a }

/-- The method `func (a *Animation) Stop()`: `CurrentApp().Driver().StopAnimation(a)`. -/
def Animation.Stop {K T D : Type} (drv : Driver D) (a : Nat) (app : App K T D) : App K T D :=
  { app with driver := drv.StopAnimation app.driver a }

/-- Modelled from the spec: the driver as the set of registered animations, kept as the
list of their addresses. `StartAnimation` "adds a Timeline to the driver's per-frame
notification set" and on an already registered one is "treated as reset/replace";
`StopAnimation` "removes it; no-op if absent". -/
def registrationDriver : Driver (List Nat) where
  StartAnimation := fun reg a => reg.filter (fun b => b ≠ a) ++ [a]
  StopAnimation := fun reg a => reg.filter (fun b => b ≠ a)

/-- Modelled from the spec: the transient running state of a timeline, which the source
leaves to the driver: "`startTime` (wall-clock instant captured at Start),
`currentRepetition` (count of completed cycles), `direction` (forward/backward)".
Instants are counts of nanoseconds, like `time.Duration`. -/
structure Run where
  startTime : Int
  currentRepetition : Int
  backward : Bool

/-- Modelled from the spec: the running state `Start()` sets up, which "captures the
current wall-clock time as `startTime`, resets `currentRepetition = 0` and
`direction = forward`". -/
def Run.started (now : Int) : Run :=
  { startTime := now, currentRepetition := 0, backward := false }

/-- Modelled from the spec: what one `Tick(now)` does: the value `onTick` is invoked
with, whether the cycle was complete (`linear == 1`), what is reported to the driver
(`finished = false` is "continue") and the running state after the tick. -/
structure TickResult (K : Type) where
  value : Option K
  cycleDone : Bool
  finished : Bool
  run : Run

/-- Modelled from the spec: `linear = clamp(elapsed / duration, 0, 1)` with
`elapsed = now - startTime`, where "duration ≤ 0 forces `linear = 1` immediately". -/
def linearProgress {K T : Type} [LinearOrderedField K] (a : Animation K T) (now : Int)
    (r : Run) : K :=
  let elapsed := now - r.startTime
  if a.Duration ≤ 0 then 1 else max 0 (min 1 ((elapsed : K) / (a.Duration : K)))

/-- Modelled from the spec: the driver-facing `Tick(now)` of section 4.2, which is not in
the source. It applies the direction and the curve to the linear progress, invokes
`onTick` with the result, and evaluates the repeat policy: "If `linear < 1` ... return
continue. If `linear == 1`: increment `currentRepetition`. If `repeatCount` is the
forever sentinel, or `currentRepetition <= repeatCount`, begin a new cycle: reset
`startTime = now`, and if `autoReverse`, flip `direction`. Return continue. Otherwise
the Timeline is finished". -/
def tick {K T : Type} [LinearOrderedField K] (a : Animation K T) (now : Int) (r : Run) :
    TickResult K :=
  let linear : K := linearProgress a now r
  let adjusted : K := if r.backward then 1 - linear else linear
  let value := curveInUse a adjusted
  if linear < 1 then
    { value := value, cycleDone := false, finished := false, run := r }
  else
    let repetition := r.currentRepetition + 1
    if a.RepeatCount = AnimationRepeatForever ∨ repetition ≤ a.RepeatCount then
      { value := value, cycleDone := true, finished := false,
        run := { startTime := now, currentRepetition := repetition,
                 backward := if a.AutoReverse then !r.backward else r.backward } }
    else
      { value := value, cycleDone := true, finished := true,
        run := { r with currentRepetition := repetition } }

/-- Modelled from the spec: the driver ticks a registered timeline once per frame, at the
instants `nows`, and deregisters it (no further tick) once it reports finished. The
result lists what each tick did. -/
def runTicks {K T : Type} [LinearOrderedField K] (a : Animation K T) :
    Run → List Int → List (TickResult K)
  | _, [] => []
  | r, now :: rest =>
    if (tick a now r).finished then
      [tick a now r]
    else
      tick a now r :: runTicks a (tick a now r).run rest

/-- The number of cycles completed in a sequence of ticks. -/
def cyclesCompleted {K : Type} (out : List (TickResult K)) : Nat :=
  out.countP fun res => res.cycleDone

/-- The number of times a sequence of ticks began a new cycle (progress reset). -/
def cyclesRestarted {K : Type} (out : List (TickResult K)) : Nat :=
  out.countP fun res => res.cycleDone && !res.finished

/-- Whether some tick of the sequence reported finished. -/
def reportsFinished {K : Type} (out : List (TickResult K)) : Bool :=
  out.any fun res => res.finished

/-- The instants `t + d, t + 2 d, ..., t + n d`: one frame at the end of each of `n`
consecutive cycles of duration `d` that begin at `t`. -/
def cycleEnds (d : Int) : Int → Nat → List Int
  | _, 0 => []
  | t, n + 1 => (t + d) :: cycleEnds d (t + d) n

end Animations

section Demo

/-! The curve selector of `cmd/fyne_demo/tutorials/animation.go`. -/

/-- The animations the curve selector assigns to: the package variable `a0`, which is
`nil` until `makeAnimationCanvas` has run, and the comparison animations `a1`
("EaseInOut"), `a2` ("EaseIn") and `a3` ("EaseOut") of `makeAnimationCurves`; they are
four separate allocations. -/
structure CurveDemo (K T : Type) where
  a0 : Option (Animation K T)
  a1 : Animation K T
  a2 : Animation K T
  a3 : Animation K T

/-- The entries of the selection list passed to `widget.NewSelect`. -/
def curveNames : List String :=
  ["Linear", "Ease", "Back", "Bounce", "Circular", "Cubic", "Elastic", "Exponential",
   "Quadratic", "Quartic", "Quintic", "Sine"]

/-- The four assignments of one `case` of the selector:
`a0.Curve = c0; a1.Curve = c1; a2.Curve = c2; a3.Curve = c3`. -/
def assignCurves {K T : Type} (c0 c1 c2 c3 : AnimationCurve K) (a0 : Animation K T)
    (s : CurveDemo K T) : CurveDemo K T :=
  { a0 := some { a0 with Curve := some c0 }
    a1 := { s.a1 with Curve := some c1 }
    a2 := { s.a2 with Curve := some c2 }
    a3 := { s.a3 with Curve := some c3 } }

/-- The callback `func(value string)` of the selector in `makeAnimationCurves`: nothing
happens while `a0 == nil`; otherwise the `switch` on `value` assigns the curves (a value
that matches no `case` assigns nothing). -/
def curveSelected {K T : Type} [LinearOrderedField K] (M : GoMath K) (value : String)
    (s : CurveDemo K T) : CurveDemo K T :=
  match s.a0 with
  | none => s
  | some a0 =>
    match value with
    | "Linear" =>
      assignCurves AnimationLinear AnimationLinear AnimationLinear AnimationLinear a0 s
    | "Ease" =>
      assignCurves AnimationEaseOut AnimationEaseInOut AnimationEaseIn AnimationEaseOut a0 s
    | "Back" =>
      assignCurves AnimationBackEaseOut AnimationBackEaseInOut AnimationBackEaseIn
        AnimationBackEaseOut a0 s
    | "Bounce" =>
      assignCurves AnimationBounceEaseOut AnimationBounceEaseInOut AnimationBounceEaseIn
        AnimationBounceEaseOut a0 s
    | "Circular" =>
      assignCurves (AnimationCircularEaseOut M) (AnimationCircularEaseInOut M)
        (AnimationCircularEaseIn M) (AnimationCircularEaseOut M) a0 s
    | "Cubic" =>
      assignCurves AnimationCubicEaseOut AnimationCubicEaseInOut AnimationCubicEaseIn
        AnimationCubicEaseOut a0 s
    | "Elastic" =>
      assignCurves (AnimationElasticEaseOut M) (AnimationElasticEaseInOut M)
        (AnimationElasticEaseIn M) (AnimationElasticEaseOut M) a0 s
    | "Exponential" =>
      assignCurves (AnimationExponentialEaseOut M) (AnimationExponentialEaseInOut M)
        (AnimationExponentialEaseIn M) (AnimationExponentialEaseOut M) a0 s
    | "Quadratic" =>
      assignCurves AnimationQuadraticEaseOut AnimationQuadraticEaseInOut
        AnimationQuadraticEaseIn AnimationQuadraticEaseOut a0 s
    | "Quartic" =>
      assignCurves AnimationQuarticEaseOut AnimationQuarticEaseInOut AnimationQuarticEaseIn
        AnimationQuarticEaseOut a0 s
    | "Quintic" =>
      assignCurves AnimationQuinticEaseOut AnimationQuinticEaseInOut AnimationQuinticEaseIn
        AnimationQuinticEaseOut a0 s
    | "Sine" =>
      assignCurves AnimationQuinticEaseOut (AnimationSineEaseInOut M)
        (AnimationSineEaseIn M) (AnimationSineEaseOut M) a0 s
    | _ => s

/-- The curve the selector is expected to give both `a0` and `a3`: the EaseOut variant of
the family that the entry of the selection list names (`AnimationLinear` for "Linear"). -/
def easeOutOf {K : Type} [LinearOrderedField K] (M : GoMath K) (value : String) :
    Option (AnimationCurve K) :=
  match value with
  | "Linear" => some AnimationLinear
  | "Ease" => some AnimationEaseOut
  | "Back" => some AnimationBackEaseOut
  | "Bounce" => some AnimationBounceEaseOut
  | "Circular" => some (AnimationCircularEaseOut M)
  | "Cubic" => some AnimationCubicEaseOut
  | "Elastic" => some (AnimationElasticEaseOut M)
  | "Exponential" => some (AnimationExponentialEaseOut M)
  | "Quadratic" => some AnimationQuadraticEaseOut
  | "Quartic" => some AnimationQuarticEaseOut
  | "Quintic" => some AnimationQuinticEaseOut
  | "Sine" => some (AnimationSineEaseOut M)
  | _ => none

end Demo

/-! ## Properties -/

section Properties

/-! ### Package `math` over the reals -/

theorem realMath_Sqrt_of_nonneg {x : ℝ} (h : 0 ≤ x) :
    realMath.Sqrt x = some (Real.sqrt x) := by
  simp [realMath, h]

theorem realMath_Sqrt_of_neg {x : ℝ} (h : x < 0) : realMath.Sqrt x = none := by
  simp [realMath, not_le.mpr h]

/-! ### C1: the end points of every curve -/

/-- C1. In exact real arithmetic every curve `f` of the catalog returns exactly `0` at
input `0` and exactly `1` at input `1` (both finite, not `NaN`); hence the value at `0`
is within every `ε > 0` of `0` and the value at `1` within every `ε > 0` of `1`. -/
theorem catalog_endpoints :
    ∀ f ∈ catalog realMath, f 0 = some 0 ∧ f 1 = some 1 ∧
      ∀ ε : ℝ, 0 < ε → ∃ y0 y1 : ℝ, f 0 = some y0 ∧ f 1 = some y1 ∧
        |y0 - 0| < ε ∧ |y1 - 1| < ε := by
  have key : ∀ f ∈ catalog realMath, f 0 = some 0 ∧ f 1 = some 1 := by
    simp only [catalog, List.forall_mem_cons, List.not_mem_nil, false_imp_iff, implies_true,
      and_true]
    refine ⟨?_, ?_, ?_, ?_, ?_, ?_, ?_, ?_, ?_, ?_, ?_, ?_, ?_, ?_, ?_, ?_, ?_, ?_, ?_, ?_,
      ?_, ?_, ?_, ?_, ?_, ?_, ?_, ?_, ?_, ?_, ?_, ?_, ?_, ?_⟩
    all_goals
      first
      | (simp only [AnimationEaseInOut, AnimationEaseIn, AnimationEaseOut, AnimationLinear,
          AnimationBackEaseInOut, AnimationBackEaseIn, AnimationBackEaseOut,
          AnimationBounceEaseInOut, AnimationBounceEaseIn, AnimationBounceEaseOut,
          AnimationCubicEaseInOut, AnimationCubicEaseIn, AnimationCubicEaseOut,
          AnimationQuadraticEaseInOut, AnimationQuadraticEaseIn, AnimationQuadraticEaseOut,
          AnimationQuarticEaseInOut, AnimationQuarticEaseIn, AnimationQuarticEaseOut,
          AnimationQuinticEaseInOut, AnimationQuinticEaseIn, AnimationQuinticEaseOut,
          finiteCurve, animationEaseInOut, animationEaseIn, animationEaseOut, animationLinear,
          animationBackEaseInOut, animationBackEaseIn, animationBackEaseOut,
          animationBounceEaseInOut, animationBounceEaseIn, animationBounceEaseOut,
          animationCubicEaseInOut, animationCubicEaseIn, animationCubicEaseOut,
          animationQuadaticEaseInOut, animationQuadaticEaseIn, animationQuadaticEaseOut,
          animationQuarticEaseInOut, animationQuarticEaseIn, animationQuarticEaseOut,
          animationQuinticEaseInOut, animationQuinticEaseIn, animationQuinticEaseOut]
         norm_num)
      | norm_num [AnimationCircularEaseInOut, AnimationCircularEaseIn,
          AnimationCircularEaseOut, AnimationElasticEaseInOut, AnimationElasticEaseIn,
          AnimationElasticEaseOut, AnimationExponentialEaseInOut, AnimationExponentialEaseIn,
          AnimationExponentialEaseOut, AnimationSineEaseInOut, AnimationSineEaseIn,
          AnimationSineEaseOut, finiteCurve, animationCircularEaseInOut,
          animationCircularEaseIn, animationCircularEaseOut, animationElasticEaseInOut,
          animationElasticEaseIn, animationElasticEaseOut, animationExponentialEaseInOut,
          animationExponentialEaseIn, animationExponentialEaseOut, animationSineEaseInOut,
          animationSineEaseIn, animationSineEaseOut, realMath]
  intro f hf
  obtain ⟨h0, h1⟩ := key f hf
  refine ⟨h0, h1, fun ε hε => ⟨0, 1, h0, h1, ?_, ?_⟩⟩ <;> simpa using hε

/-- The end points of `AnimationCircularEaseIn`, a curve of the catalog, with `ε = 1/1000`. -/
theorem catalog_endpoints_witness :
    AnimationCircularEaseIn realMath ∈ catalog realMath ∧ (0 : ℝ) < 1 / 1000 ∧
      AnimationCircularEaseIn realMath 0 = some 0 ∧
      AnimationCircularEaseIn realMath 1 = some 1 ∧
      ∃ y0 y1 : ℝ, AnimationCircularEaseIn realMath 0 = some y0 ∧
        AnimationCircularEaseIn realMath 1 = some y1 ∧
        |y0 - 0| < 1 / 1000 ∧ |y1 - 1| < 1 / 1000 :=
  have hm : AnimationCircularEaseIn realMath ∈ catalog realMath := by simp [catalog]
  have hε : (0 : ℝ) < 1 / 1000 := by norm_num
  ⟨hm, hε, (catalog_endpoints _ hm).1, (catalog_endpoints _ hm).2.1,
    (catalog_endpoints _ hm).2.2 _ hε⟩

/-! ### C4: time reversal between the Bounce curves -/

/-- C4. For every `t` (in particular every `t` in `[0,1]`), `animationBounceEaseIn t`
is exactly `1 - animationBounceEaseOut (1 - t)`. -/
theorem bounceEaseIn_eq_one_sub_bounceEaseOut (t : ℝ) :
    animationBounceEaseIn t = 1 - animationBounceEaseOut (1 - t) := by
  rfl

/-! ### C5: the power-law curves -/

/-- C5. For the degrees `n = 2, 3, 4, 5` (Quadratic, Cubic, Quartic, Quintic) and every
real `t`, the EaseIn curve returns `t ^ n` and the EaseOut curve returns
`1 - (1 - t) ^ n`. -/
theorem power_curves (t : ℝ) :
    (animationQuadaticEaseIn t = t ^ 2 ∧ animationQuadaticEaseOut t = 1 - (1 - t) ^ 2) ∧
    (animationCubicEaseIn t = t ^ 3 ∧ animationCubicEaseOut t = 1 - (1 - t) ^ 3) ∧
    (animationQuarticEaseIn t = t ^ 4 ∧ animationQuarticEaseOut t = 1 - (1 - t) ^ 4) ∧
    (animationQuinticEaseIn t = t ^ 5 ∧ animationQuinticEaseOut t = 1 - (1 - t) ^ 5) := by
  simp only [animationQuadaticEaseIn, animationQuadaticEaseOut, animationCubicEaseIn,
    animationCubicEaseOut, animationQuarticEaseIn, animationQuarticEaseOut,
    animationQuinticEaseIn, animationQuinticEaseOut]
  refine ⟨⟨?_, ?_⟩, ⟨?_, ?_⟩, ⟨?_, ?_⟩, ⟨?_, ?_⟩⟩ <;> ring

/-! ### C6: EaseInOut of the polynomial families as midpoint composition -/

/-- C6. For the families Ease, Quadratic, Cubic, Quartic and Quintic and every real `t`:
`InOut t = In (2 t) / 2` when `t < 1/2`, and `InOut t = Out (2 t - 1) / 2 + 1/2` when
`1/2 ≤ t`. -/
theorem polynomial_easeInOut_midpoint_composition (t : ℝ) :
    (t < 1 / 2 →
      animationEaseInOut t = animationEaseIn (2 * t) / 2 ∧
      animationQuadaticEaseInOut t = animationQuadaticEaseIn (2 * t) / 2 ∧
      animationCubicEaseInOut t = animationCubicEaseIn (2 * t) / 2 ∧
      animationQuarticEaseInOut t = animationQuarticEaseIn (2 * t) / 2 ∧
      animationQuinticEaseInOut t = animationQuinticEaseIn (2 * t) / 2) ∧
    (1 / 2 ≤ t →
      animationEaseInOut t = animationEaseOut (2 * t - 1) / 2 + 1 / 2 ∧
      animationQuadaticEaseInOut t = animationQuadaticEaseOut (2 * t - 1) / 2 + 1 / 2 ∧
      animationCubicEaseInOut t = animationCubicEaseOut (2 * t - 1) / 2 + 1 / 2 ∧
      animationQuarticEaseInOut t = animationQuarticEaseOut (2 * t - 1) / 2 + 1 / 2 ∧
      animationQuinticEaseInOut t = animationQuinticEaseOut (2 * t - 1) / 2 + 1 / 2) := by
  have half : (0.5 : ℝ) = 1 / 2 := by norm_num
  simp only [animationEaseInOut, animationEaseIn, animationEaseOut,
    animationQuadaticEaseInOut, animationQuadaticEaseIn, animationQuadaticEaseOut,
    animationCubicEaseInOut, animationCubicEaseIn, animationCubicEaseOut,
    animationQuarticEaseInOut, animationQuarticEaseIn, animationQuarticEaseOut,
    animationQuinticEaseInOut, animationQuinticEaseIn, animationQuinticEaseOut, half]
  constructor
  · intro h
    rw [if_pos h.le, if_pos h, if_pos h, if_pos h, if_pos h]
    refine ⟨?_, ?_, ?_, ?_, ?_⟩ <;> ring
  · intro h
    rw [if_neg (not_lt.mpr h), if_neg (not_lt.mpr h), if_neg (not_lt.mpr h),
      if_neg (not_lt.mpr h)]
    refine ⟨?_, ?_, ?_, ?_, ?_⟩
    · split_ifs with h2
      · have : t = 1 / 2 := le_antisymm h2 h
        subst this
        norm_num
      · ring
    all_goals ring

/-- The midpoint composition at `t = 1/4` (first half) and at `t = 1/2` (second half). -/
theorem polynomial_easeInOut_midpoint_composition_witness :
    ((1 / 4 : ℝ) < 1 / 2 ∧ animationEaseInOut (1 / 4 : ℝ) = animationEaseIn (2 * (1 / 4)) / 2) ∧
    ((1 / 2 : ℝ) ≤ 1 / 2 ∧
      animationEaseInOut (1 / 2 : ℝ) = animationEaseOut (2 * (1 / 2) - 1) / 2 + 1 / 2) :=
  ⟨⟨by norm_num, ((polynomial_easeInOut_midpoint_composition (1 / 4)).1 (by norm_num)).1⟩,
   ⟨le_refl _, ((polynomial_easeInOut_midpoint_composition (1 / 2)).2 (le_refl _)).1⟩⟩

/-! ### C3: the overshoot of the Back curves -/

/-- C3. With `s = 1.70158` (and `s * 1.525` in the InOut variant), for every `t` with
`0 ≤ t ≤ 1` the values of `animationBackEaseIn`, `animationBackEaseOut` and
`animationBackEaseInOut` lie in `[-0.2, 1.2]`. -/
theorem back_curves_bounded (t : ℝ) (h0 : 0 ≤ t) (h1 : t ≤ 1) :
    (-0.2 ≤ animationBackEaseIn t ∧ animationBackEaseIn t ≤ 1.2) ∧
    (-0.2 ≤ animationBackEaseOut t ∧ animationBackEaseOut t ≤ 1.2) ∧
    (-0.2 ≤ animationBackEaseInOut t ∧ animationBackEaseInOut t ≤ 1.2) := by
  have hu : 0 ≤ 1 - t := by linarith
  refine ⟨⟨?_, ?_⟩, ⟨?_, ?_⟩, ⟨?_, ?_⟩⟩
  · simp only [animationBackEaseIn]
    norm_num
    nlinarith [mul_nonneg h0 (sq_nonneg (t - 0.42)), sq_nonneg (t - 0.42)]
  · simp only [animationBackEaseIn]
    norm_num
    nlinarith [mul_nonneg hu (sq_nonneg t), mul_nonneg h0 h0]
  · simp only [animationBackEaseOut]
    norm_num
    nlinarith [mul_nonneg h0 (sq_nonneg (1 - t)), mul_nonneg hu hu]
  · simp only [animationBackEaseOut]
    norm_num
    nlinarith [mul_nonneg hu (sq_nonneg (1 - t - 0.42)), sq_nonneg (1 - t - 0.42)]
  · simp only [animationBackEaseInOut]
    split_ifs with h
    · norm_num
      nlinarith [mul_nonneg h0 (sq_nonneg (2 * t - 0.48)), sq_nonneg (2 * t - 0.48)]
    · norm_num
      have h2 : 0 ≤ 2 - 2 * t := by linarith
      nlinarith [mul_nonneg h2 (sq_nonneg (2 * t - 2)), mul_nonneg h2 h2]
  · simp only [animationBackEaseInOut]
    split_ifs with h
    · norm_num
      have h2 : 0 ≤ 1 - 2 * t := by linarith
      nlinarith [mul_nonneg h2 (sq_nonneg (2 * t)), mul_nonneg h0 h0]
    · norm_num
      have h2 : 0 ≤ 2 - 2 * t := by linarith
      nlinarith [mul_nonneg h2 (sq_nonneg (2 - 2 * t - 0.48)), sq_nonneg (2 - 2 * t - 0.48)]

/-- The bounds of the three Back curves at `t = 1/2`. -/
theorem back_curves_bounded_witness :
    (0 : ℝ) ≤ 1 / 2 ∧ (1 / 2 : ℝ) ≤ 1 ∧
    (-0.2 ≤ animationBackEaseIn (1 / 2 : ℝ) ∧ animationBackEaseIn (1 / 2 : ℝ) ≤ 1.2) ∧
    (-0.2 ≤ animationBackEaseOut (1 / 2 : ℝ) ∧ animationBackEaseOut (1 / 2 : ℝ) ≤ 1.2) ∧
    (-0.2 ≤ animationBackEaseInOut (1 / 2 : ℝ) ∧ animationBackEaseInOut (1 / 2 : ℝ) ≤ 1.2) :=
  ⟨by norm_num, by norm_num, back_curves_bounded (1 / 2) (by norm_num) (by norm_num)⟩

/-! ### C2: continuity of the EaseInOut curves at the midpoint -/

/-- A two-branch function `if a x < b x then f x else g x` is continuous when the
branches are continuous and agree wherever `a x = b x`. -/
theorem continuous_ite_lt {a b f g : ℝ → ℝ} (ha : Continuous a) (hb : Continuous b)
    (hf : Continuous f) (hg : Continuous g) (h : ∀ x, a x = b x → f x = g x) :
    Continuous fun x => if a x < b x then f x else g x := by
  have e : (fun x => if a x < b x then f x else g x)
      = fun x => if b x ≤ a x then g x else f x := by
    funext x
    by_cases hx : a x < b x
    · rw [if_pos hx, if_neg (not_le.mpr hx)]
    · rw [if_neg hx, if_pos (not_lt.mp hx)]
  rw [e]
  exact Continuous.if_le hg hf hb ha (fun x hx => (h x hx.symm).symm)

theorem animationEaseInOut_continuous : Continuous (animationEaseInOut : ℝ → ℝ) := by
  unfold animationEaseInOut
  refine Continuous.if_le (by fun_prop) (by fun_prop) continuous_id continuous_const ?_
  intro x hx
  rw [hx]
  norm_num

theorem animationBackEaseInOut_continuous : Continuous (animationBackEaseInOut : ℝ → ℝ) := by
  unfold animationBackEaseInOut
  refine continuous_ite_lt (by fun_prop) continuous_const (by fun_prop) (by fun_prop) ?_
  intro x hx
  simp only [hx]
  norm_num

theorem animationCubicEaseInOut_continuous : Continuous (animationCubicEaseInOut : ℝ → ℝ) := by
  unfold animationCubicEaseInOut
  refine continuous_ite_lt continuous_id continuous_const (by fun_prop) (by fun_prop) ?_
  intro x hx
  simp only [id] at hx
  rw [hx]
  norm_num

theorem animationQuadaticEaseInOut_continuous :
    Continuous (animationQuadaticEaseInOut : ℝ → ℝ) := by
  unfold animationQuadaticEaseInOut
  refine continuous_ite_lt continuous_id continuous_const (by fun_prop) (by fun_prop) ?_
  intro x hx
  simp only [id] at hx
  rw [hx]
  norm_num

theorem animationQuarticEaseInOut_continuous :
    Continuous (animationQuarticEaseInOut : ℝ → ℝ) := by
  unfold animationQuarticEaseInOut
  refine continuous_ite_lt continuous_id continuous_const (by fun_prop) (by fun_prop) ?_
  intro x hx
  simp only [id] at hx
  rw [hx]
  norm_num

theorem animationQuinticEaseInOut_continuous :
    Continuous (animationQuinticEaseInOut : ℝ → ℝ) := by
  unfold animationQuinticEaseInOut
  refine continuous_ite_lt continuous_id continuous_const (by fun_prop) (by fun_prop) ?_
  intro x hx
  simp only [id] at hx
  rw [hx]
  norm_num

theorem animationBounceEaseOut_continuous : Continuous (animationBounceEaseOut : ℝ → ℝ) := by
  unfold animationBounceEaseOut
  refine continuous_ite_lt continuous_id continuous_const (by fun_prop) ?_ ?_
  · refine continuous_ite_lt continuous_id continuous_const (by fun_prop) ?_ ?_
    · refine continuous_ite_lt continuous_id continuous_const (by fun_prop) (by fun_prop) ?_
      intro x hx
      simp only [id] at hx
      rw [hx]
      norm_num
    · intro x hx
      simp only [id] at hx
      rw [hx]
      norm_num
  · intro x hx
    simp only [id] at hx
    rw [hx]
    norm_num

theorem animationBounceEaseIn_continuous : Continuous (animationBounceEaseIn : ℝ → ℝ) := by
  unfold animationBounceEaseIn
  exact continuous_const.sub (animationBounceEaseOut_continuous.comp (by fun_prop))

theorem animationBounceEaseInOut_continuous :
    Continuous (animationBounceEaseInOut : ℝ → ℝ) := by
  unfold animationBounceEaseInOut
  refine continuous_ite_lt (by fun_prop) continuous_const
    (continuous_const.mul (animationBounceEaseIn_continuous.comp (by fun_prop)))
    ((continuous_const.mul (animationBounceEaseOut_continuous.comp (by fun_prop))).add
      continuous_const) ?_
  intro x hx
  simp only [hx, animationBounceEaseIn, animationBounceEaseOut]
  norm_num
theorem animationCircularEaseInOut_eq_some {t : ℝ} (h0 : -(1 / 2) ≤ t) (h1 : t ≤ 3 / 2) :
    animationCircularEaseInOut realMath t =
      some (if t * 2 < 1 then -0.5 * (Real.sqrt (1 - t * 2 * (t * 2)) - 1)
        else 0.5 * (Real.sqrt (1 - (t * 2 - 2) * (t * 2 - 2)) + 1)) := by
  unfold animationCircularEaseInOut
  by_cases h : t * 2 < 1
  · have hn : (0 : ℝ) ≤ 1 - t * 2 * (t * 2) := by nlinarith
    simp only [if_pos h, realMath_Sqrt_of_nonneg hn, Option.map_some']
  · have h2 : 1 ≤ t * 2 := not_lt.mp h
    have hn : (0 : ℝ) ≤ 1 - (t * 2 - 2) * (t * 2 - 2) := by nlinarith
    simp only [if_neg h, realMath_Sqrt_of_nonneg hn, Option.map_some']

theorem circularEaseInOut_real_continuous :
    Continuous fun t : ℝ =>
      if t * 2 < 1 then -0.5 * (Real.sqrt (1 - t * 2 * (t * 2)) - 1)
      else 0.5 * (Real.sqrt (1 - (t * 2 - 2) * (t * 2 - 2)) + 1) := by
  refine continuous_ite_lt (by fun_prop) continuous_const ?_ ?_ ?_
  · exact continuous_const.mul ((Real.continuous_sqrt.comp (by fun_prop)).sub continuous_const)
  · exact continuous_const.mul ((Real.continuous_sqrt.comp (by fun_prop)).add continuous_const)
  · intro x hx
    simp only [hx]
    norm_num

theorem animationElasticEaseInOut_eq {t : ℝ} (h0 : t ≠ 0) (h1 : t ≠ 1) :
    animationElasticEaseInOut realMath t =
      if t * 2 - 1 < 0 then
        -0.5 * (1 * (2 : ℝ) ^ (10 * (t * 2 - 1)) *
          Real.sin ((t * 2 - 1 - 0.3 / 4 * 1.5) * (2 * Real.pi) / (0.3 * 1.5)))
      else
        0.5 * 1 * (2 : ℝ) ^ (-10 * (t * 2 - 1)) *
          Real.sin ((t * 2 - 1 - 0.3 / 4 * 1.5) * (2 * Real.pi) / (0.3 * 1.5)) + 1 := by
  unfold animationElasticEaseInOut
  simp only [h0, h1, or_self, if_false, realMath]

theorem elasticEaseInOut_real_continuous :
    Continuous fun t : ℝ =>
      if t * 2 - 1 < 0 then
        -0.5 * (1 * (2 : ℝ) ^ (10 * (t * 2 - 1)) *
          Real.sin ((t * 2 - 1 - 0.3 / 4 * 1.5) * (2 * Real.pi) / (0.3 * 1.5)))
      else
        0.5 * 1 * (2 : ℝ) ^ (-10 * (t * 2 - 1)) *
          Real.sin ((t * 2 - 1 - 0.3 / 4 * 1.5) * (2 * Real.pi) / (0.3 * 1.5)) + 1 := by
  have hp1 : Continuous fun t : ℝ => (2 : ℝ) ^ (10 * (t * 2 - 1)) :=
    Continuous.rpow continuous_const (by fun_prop) (fun _ => Or.inl two_ne_zero)
  have hp2 : Continuous fun t : ℝ => (2 : ℝ) ^ (-10 * (t * 2 - 1)) :=
    Continuous.rpow continuous_const (by fun_prop) (fun _ => Or.inl two_ne_zero)
  have hs : Continuous fun t : ℝ =>
      Real.sin ((t * 2 - 1 - 0.3 / 4 * 1.5) * (2 * Real.pi) / (0.3 * 1.5)) :=
    Real.continuous_sin.comp (by fun_prop)
  refine continuous_ite_lt (by fun_prop) continuous_const ?_ ?_ ?_
  · exact continuous_const.mul ((continuous_const.mul hp1).mul hs)
  · exact ((continuous_const.mul hp2).mul hs).add continuous_const
  · intro x hx
    have e : (x * 2 - 1 - 0.3 / 4 * 1.5) * (2 * Real.pi) / (0.3 * 1.5) = -(Real.pi / 2) := by
      rw [hx]
      ring
    rw [e, hx]
    simp only [Real.sin_neg, Real.sin_pi_div_two]
    norm_num

theorem animationExponentialEaseInOut_eq {t : ℝ} (h0 : t ≠ 0) (h1 : t ≠ 1) :
    animationExponentialEaseInOut realMath t =
      if 0 > t * 2 - 1 then 0.5 * (2 : ℝ) ^ (10 * (t * 2 - 1))
      else 1 - 0.5 * (2 : ℝ) ^ (-10 * (t * 2 - 1)) := by
  unfold animationExponentialEaseInOut
  simp only [h0, h1, or_self, if_false, realMath]

theorem exponentialEaseInOut_real_continuous :
    Continuous fun t : ℝ =>
      if 0 > t * 2 - 1 then 0.5 * (2 : ℝ) ^ (10 * (t * 2 - 1))
      else 1 - 0.5 * (2 : ℝ) ^ (-10 * (t * 2 - 1)) := by
  have hp1 : Continuous fun t : ℝ => (2 : ℝ) ^ (10 * (t * 2 - 1)) :=
    Continuous.rpow continuous_const (by fun_prop) (fun _ => Or.inl two_ne_zero)
  have hp2 : Continuous fun t : ℝ => (2 : ℝ) ^ (-10 * (t * 2 - 1)) :=
    Continuous.rpow continuous_const (by fun_prop) (fun _ => Or.inl two_ne_zero)
  refine continuous_ite_lt (by fun_prop) continuous_const (continuous_const.mul hp1)
    (continuous_const.sub (continuous_const.mul hp2)) ?_
  intro x hx
  rw [hx]
  norm_num

theorem animationSineEaseInOut_continuous :
    Continuous (animationSineEaseInOut realMath) := by
  unfold animationSineEaseInOut
  simp only [realMath]
  exact continuous_const.mul ((Real.continuous_cos.comp (by fun_prop)).sub continuous_const)

/-- A curve that agrees near `1/2` with a real function continuous at `1/2` of value
`1/2` there is finite around the midpoint and both one-sided limits are `1/2`. -/
theorem midpoint_of_continuousAt {f : AnimationCurve ℝ} {g : ℝ → ℝ} {r : ℝ} (hr : 0 < r)
    (hfg : ∀ t, |t - 1 / 2| < r → f t = some (g t)) (hg : ContinuousAt g (1 / 2))
    (hv : g (1 / 2) = 1 / 2) :
    f (1 / 2) = some (1 / 2) ∧
    ∀ ε : ℝ, 0 < ε → ∃ δ : ℝ, 0 < δ ∧ ∀ e : ℝ, 0 < e → e < δ →
      (∃ y, f (1 / 2 - e) = some y ∧ |y - 1 / 2| < ε) ∧
      (∃ y, f (1 / 2 + e) = some y ∧ |y - 1 / 2| < ε) := by
  constructor
  · rw [hfg (1 / 2) (by simpa using hr), hv]
  · intro ε hε
    obtain ⟨δ, hδ, hcl⟩ := Metric.continuousAt_iff.mp hg ε hε
    refine ⟨min δ r, lt_min hδ hr, fun e he0 he => ⟨⟨g (1 / 2 - e), ?_, ?_⟩, ⟨g (1 / 2 + e), ?_, ?_⟩⟩⟩
    · apply hfg
      have : |1 / 2 - e - 1 / 2| = e := by
        rw [show (1 / 2 - e - 1 / 2 : ℝ) = -e by ring, abs_neg, abs_of_pos he0]
      rw [this]
      exact lt_of_lt_of_le he (min_le_right _ _)
    · have hd : dist (1 / 2 - e) (1 / 2 : ℝ) < δ := by
        rw [Real.dist_eq, show (1 / 2 - e - 1 / 2 : ℝ) = -e by ring, abs_neg, abs_of_pos he0]
        exact lt_of_lt_of_le he (min_le_left _ _)
      have := hcl hd
      rwa [Real.dist_eq, hv] at this
    · apply hfg
      have : |1 / 2 + e - 1 / 2| = e := by
        rw [show (1 / 2 + e - 1 / 2 : ℝ) = e by ring, abs_of_pos he0]
      rw [this]
      exact lt_of_lt_of_le he (min_le_right _ _)
    · have hd : dist (1 / 2 + e) (1 / 2 : ℝ) < δ := by
        rw [Real.dist_eq, show (1 / 2 + e - 1 / 2 : ℝ) = e by ring, abs_of_pos he0]
        exact lt_of_lt_of_le he (min_le_left _ _)
      have := hcl hd
      rwa [Real.dist_eq, hv] at this
/-- C2. For every family, the EaseInOut curve `f` is continuous at `t = 1/2` in exact
real arithmetic: `f (1/2) = 1/2`, and for every `ε > 0` there is `δ > 0` such that for
all `0 < e < δ` both `f (1/2 - e)` and `f (1/2 + e)` are finite and within `ε` of `1/2`
(the left and the right limit at the midpoint both exist and equal `f (1/2) = 1/2`). -/
theorem easeInOut_continuous_at_midpoint :
    ∀ f ∈ easeInOutCurves realMath,
      f (1 / 2) = some (1 / 2) ∧
      ∀ ε : ℝ, 0 < ε → ∃ δ : ℝ, 0 < δ ∧ ∀ e : ℝ, 0 < e → e < δ →
        (∃ y, f (1 / 2 - e) = some y ∧ |y - 1 / 2| < ε) ∧
        (∃ y, f (1 / 2 + e) = some y ∧ |y - 1 / 2| < ε) := by
  have near : ∀ t : ℝ, |t - 1 / 2| < 1 / 2 → 0 < t ∧ t < 1 := by
    intro t ht
    obtain ⟨h1, h2⟩ := abs_lt.mp ht
    constructor <;> linarith
  simp only [easeInOutCurves, List.forall_mem_cons, List.not_mem_nil, false_imp_iff,
    implies_true, and_true]
  refine ⟨?_, ?_, ?_, ?_, ?_, ?_, ?_, ?_, ?_, ?_, ?_⟩
  · exact midpoint_of_continuousAt one_pos (fun t _ => rfl)
      animationEaseInOut_continuous.continuousAt (by norm_num [animationEaseInOut])
  · exact midpoint_of_continuousAt one_pos (fun t _ => rfl)
      animationBackEaseInOut_continuous.continuousAt (by norm_num [animationBackEaseInOut])
  · exact midpoint_of_continuousAt one_pos (fun t _ => rfl)
      animationBounceEaseInOut_continuous.continuousAt
      (by norm_num [animationBounceEaseInOut, animationBounceEaseOut])
  · refine midpoint_of_continuousAt (by norm_num : (0 : ℝ) < 1 / 2) ?_
      circularEaseInOut_real_continuous.continuousAt (by norm_num)
    intro t ht
    obtain ⟨h0, h1⟩ := near t ht
    exact animationCircularEaseInOut_eq_some (by linarith) (by linarith)
  · exact midpoint_of_continuousAt one_pos (fun t _ => rfl)
      animationCubicEaseInOut_continuous.continuousAt (by norm_num [animationCubicEaseInOut])
  · refine midpoint_of_continuousAt (by norm_num : (0 : ℝ) < 1 / 2) ?_
      elasticEaseInOut_real_continuous.continuousAt ?_
    · intro t ht
      obtain ⟨h0, h1⟩ := near t ht
      exact congrArg some (animationElasticEaseInOut_eq h0.ne' h1.ne)
    · have e : ((1 / 2 : ℝ) * 2 - 1 - 0.3 / 4 * 1.5) * (2 * Real.pi) / (0.3 * 1.5)
          = -(Real.pi / 2) := by ring
      rw [e]
      simp only [Real.sin_neg, Real.sin_pi_div_two]
      norm_num
  · refine midpoint_of_continuousAt (by norm_num : (0 : ℝ) < 1 / 2) ?_
      exponentialEaseInOut_real_continuous.continuousAt (by norm_num)
    intro t ht
    obtain ⟨h0, h1⟩ := near t ht
    exact congrArg some (animationExponentialEaseInOut_eq h0.ne' h1.ne)
  · exact midpoint_of_continuousAt one_pos (fun t _ => rfl)
      animationQuadaticEaseInOut_continuous.continuousAt
      (by norm_num [animationQuadaticEaseInOut])
  · exact midpoint_of_continuousAt one_pos (fun t _ => rfl)
      animationQuarticEaseInOut_continuous.continuousAt
      (by norm_num [animationQuarticEaseInOut])
  · exact midpoint_of_continuousAt one_pos (fun t _ => rfl)
      animationQuinticEaseInOut_continuous.continuousAt
      (by norm_num [animationQuinticEaseInOut])
  · exact midpoint_of_continuousAt one_pos (fun t _ => rfl)
      animationSineEaseInOut_continuous.continuousAt
      (by
        have e : (1 / 2 : ℝ) * Real.pi = Real.pi / 2 := by ring
        simp only [animationSineEaseInOut, realMath, e, Real.cos_pi_div_two]
        norm_num)

/-- The midpoint property of `AnimationCircularEaseInOut` with `ε = 1/100`. -/
theorem easeInOut_continuous_at_midpoint_witness :
    AnimationCircularEaseInOut realMath ∈ easeInOutCurves realMath ∧ (0 : ℝ) < 1 / 100 ∧
      AnimationCircularEaseInOut realMath (1 / 2) = some (1 / 2) ∧
      ∃ δ : ℝ, 0 < δ ∧ ∀ e : ℝ, 0 < e → e < δ →
        (∃ y, AnimationCircularEaseInOut realMath (1 / 2 - e) = some y ∧
          |y - 1 / 2| < 1 / 100) ∧
        (∃ y, AnimationCircularEaseInOut realMath (1 / 2 + e) = some y ∧
          |y - 1 / 2| < 1 / 100) :=
  have hm : AnimationCircularEaseInOut realMath ∈ easeInOutCurves realMath := by
    simp [easeInOutCurves]
  have hε : (0 : ℝ) < 1 / 100 := by norm_num
  ⟨hm, hε, (easeInOut_continuous_at_midpoint _ hm).1,
    (easeInOut_continuous_at_midpoint _ hm).2 _ hε⟩

/-! ### C7: the Elastic EaseInOut curve against the In and Out curves -/

theorem animationElasticEaseIn_eq {t : ℝ} (h0 : t ≠ 0) (h1 : t ≠ 1) :
    animationElasticEaseIn realMath t =
      -(1 * (2 : ℝ) ^ (10 * (t - 1)) * Real.sin ((t - 1 - 0.3 / 4) * (2 * Real.pi) / 0.3)) := by
  unfold animationElasticEaseIn
  simp only [h0, h1, or_self, if_false, realMath]

theorem animationElasticEaseOut_eq {t : ℝ} (h0 : t ≠ 0) (h1 : t ≠ 1) :
    animationElasticEaseOut realMath t =
      1 * (2 : ℝ) ^ (-10 * t) * Real.sin ((t - 0.3 / 4) * (2 * Real.pi) / 0.3) + 1 := by
  unfold animationElasticEaseOut
  simp only [h0, h1, or_self, if_false, realMath]

/-- C7, as stated, fails in both halves. At `t = 7/32` (first half)
`animationElasticEaseInOut` is `0` while `animationElasticEaseIn (2 t) / 2` is not, and
at `t = 89/160` (second half) `animationElasticEaseInOut` is `1` while
`animationElasticEaseOut (2 t - 1) / 2 + 1/2` is not. -/
theorem elasticEaseInOut_ne_half_curves :
    ((0 : ℝ) < 7 / 32 ∧ (7 / 32 : ℝ) < 1 / 2 ∧
      animationElasticEaseInOut realMath (7 / 32) = 0 ∧
      animationElasticEaseInOut realMath (7 / 32)
        ≠ animationElasticEaseIn realMath (2 * (7 / 32)) / 2) ∧
    ((1 / 2 : ℝ) ≤ 89 / 160 ∧ (89 / 160 : ℝ) < 1 ∧
      animationElasticEaseInOut realMath (89 / 160) = 1 ∧
      animationElasticEaseInOut realMath (89 / 160)
        ≠ animationElasticEaseOut realMath (2 * (89 / 160) - 1) / 2 + 1 / 2) := by
  have hio : animationElasticEaseInOut realMath (7 / 32) = 0 := by
    rw [animationElasticEaseInOut_eq (by norm_num) (by norm_num)]
    have e : ((7 / 32 : ℝ) * 2 - 1 - 0.3 / 4 * 1.5) * (2 * Real.pi) / (0.3 * 1.5)
        = ((-3 : ℤ) : ℝ) * Real.pi := by
      push_cast
      ring
    rw [e, Real.sin_int_mul_pi]
    norm_num
  have hin : animationElasticEaseIn realMath (2 * (7 / 32)) / 2 ≠ 0 := by
    rw [animationElasticEaseIn_eq (by norm_num) (by norm_num)]
    have hp : (0 : ℝ) < (2 : ℝ) ^ (10 * ((2 : ℝ) * (7 / 32) - 1)) :=
      Real.rpow_pos_of_pos two_pos _
    have hs : Real.sin (((2 : ℝ) * (7 / 32) - 1 - 0.3 / 4) * (2 * Real.pi) / 0.3) ≠ 0 := by
      intro h
      obtain ⟨n, hn⟩ := Real.sin_eq_zero_iff.mp h
      have e : ((2 : ℝ) * (7 / 32) - 1 - 0.3 / 4) * (2 * Real.pi) / 0.3
          = -(17 / 4) * Real.pi := by ring
      rw [e] at hn
      have h4 : (n : ℝ) = -(17 / 4) := mul_right_cancel₀ Real.pi_ne_zero hn
      have h5 : ((4 * n : ℤ) : ℝ) = ((-17 : ℤ) : ℝ) := by
        push_cast
        rw [h4]
        norm_num
      have h6 : 4 * n = -17 := by exact_mod_cast h5
      omega
    have hne : (2 : ℝ) ^ (10 * ((2 : ℝ) * (7 / 32) - 1)) ≠ 0 := hp.ne'
    simp only [one_mul, ne_eq, div_eq_zero_iff, neg_eq_zero, mul_eq_zero, hne, hs, or_self,
      false_or, OfNat.ofNat_ne_zero, not_false_eq_true]
  have hio2 : animationElasticEaseInOut realMath (89 / 160) = 1 := by
    rw [animationElasticEaseInOut_eq (by norm_num) (by norm_num)]
    have e : ((89 / 160 : ℝ) * 2 - 1 - 0.3 / 4 * 1.5) * (2 * Real.pi) / (0.3 * 1.5) = 0 := by
      norm_num
    rw [e, Real.sin_zero]
    norm_num
  have hout : animationElasticEaseOut realMath (2 * (89 / 160) - 1) / 2 + 1 / 2 ≠ 1 := by
    rw [animationElasticEaseOut_eq (by norm_num) (by norm_num)]
    have hp : (0 : ℝ) < (2 : ℝ) ^ (-10 * ((2 : ℝ) * (89 / 160) - 1)) :=
      Real.rpow_pos_of_pos two_pos _
    have e : ((2 : ℝ) * (89 / 160) - 1 - 0.3 / 4) * (2 * Real.pi) / 0.3 = Real.pi / 4 := by
      ring
    have hs : 0 < Real.sin (((2 : ℝ) * (89 / 160) - 1 - 0.3 / 4) * (2 * Real.pi) / 0.3) := by
      rw [e]
      exact Real.sin_pos_of_pos_of_lt_pi (by positivity) (by linarith [Real.pi_pos])
    have hprod := mul_pos hp hs
    intro h
    linarith
  refine ⟨⟨by norm_num, by norm_num, hio, ?_⟩, ⟨by norm_num, by norm_num, hio2, ?_⟩⟩
  · rw [hio]
    exact fun h => hin h.symm
  · rw [hio2]
    exact fun h => hout h.symm

/-- C7, amended. The Elastic EaseInOut curve has the form of `In (2 t) / 2` on
`0 < t < 1/2` and of `Out (2 t - 1) / 2 + 1/2` on `1/2 ≤ t < 1`, with the same
exponential factor, but its sine has period `0.45` and phase shift `0.1125`
(`p * 1.5` and `s * 1.5`) where the In and Out curves have `0.3` and `0.075`.
At `t = 1/2` the two values agree (both are `1/2`). -/
theorem elasticEaseInOut_half_curves_scaled_period (t : ℝ) :
    (0 < t → t < 1 / 2 →
      animationElasticEaseInOut realMath t
        = -(1 / 2) * (2 : ℝ) ^ (10 * (2 * t - 1))
            * Real.sin ((2 * t - 1 - 9 / 80) * (2 * Real.pi) / (9 / 20)) ∧
      animationElasticEaseIn realMath (2 * t) / 2
        = -(1 / 2) * (2 : ℝ) ^ (10 * (2 * t - 1))
            * Real.sin ((2 * t - 1 - 3 / 40) * (2 * Real.pi) / (3 / 10))) ∧
    (1 / 2 ≤ t → t < 1 →
      animationElasticEaseInOut realMath t
        = 1 / 2 * (2 : ℝ) ^ (-10 * (2 * t - 1))
            * Real.sin ((2 * t - 1 - 9 / 80) * (2 * Real.pi) / (9 / 20)) + 1 ∧
      (1 / 2 < t →
        animationElasticEaseOut realMath (2 * t - 1) / 2 + 1 / 2
          = 1 / 2 * (2 : ℝ) ^ (-10 * (2 * t - 1))
              * Real.sin ((2 * t - 1 - 3 / 40) * (2 * Real.pi) / (3 / 10)) + 1)) ∧
    (animationElasticEaseInOut realMath (1 / 2) = 1 / 2 ∧
      animationElasticEaseOut realMath (2 * (1 / 2) - 1) / 2 + 1 / 2 = 1 / 2) := by
  refine ⟨?_, ?_, ?_, ?_⟩
  · intro h0 h1
    constructor
    · rw [animationElasticEaseInOut_eq h0.ne' (by linarith : t ≠ 1),
        if_pos (by linarith : t * 2 - 1 < 0)]
      rw [show t * 2 - 1 = 2 * t - 1 by ring]
      norm_num
      ring
    · rw [animationElasticEaseIn_eq (by linarith : 2 * t ≠ 0) (by linarith : 2 * t ≠ 1)]
      norm_num
      ring
  · intro h0 h1
    constructor
    · rw [animationElasticEaseInOut_eq (by linarith : t ≠ 0) h1.ne,
        if_neg (by linarith : ¬ t * 2 - 1 < 0)]
      rw [show t * 2 - 1 = 2 * t - 1 by ring]
      norm_num
    · intro h2
      rw [animationElasticEaseOut_eq (by linarith : 2 * t - 1 ≠ 0)
        (by linarith : 2 * t - 1 ≠ 1)]
      norm_num
      ring
  · rw [animationElasticEaseInOut_eq (by norm_num) (by norm_num)]
    have e : ((1 / 2 : ℝ) * 2 - 1 - 0.3 / 4 * 1.5) * (2 * Real.pi) / (0.3 * 1.5)
        = -(Real.pi / 2) := by ring
    rw [e]
    simp only [Real.sin_neg, Real.sin_pi_div_two]
    norm_num
  · norm_num [animationElasticEaseOut]

/-- The amended C7 at `t = 1/4` (first half) and `t = 3/4` (second half). -/
theorem elasticEaseInOut_half_curves_scaled_period_witness :
    ((0 : ℝ) < 1 / 4 ∧ (1 / 4 : ℝ) < 1 / 2 ∧
      animationElasticEaseInOut realMath (1 / 4)
        = -(1 / 2) * (2 : ℝ) ^ (10 * (2 * (1 / 4 : ℝ) - 1))
            * Real.sin ((2 * (1 / 4 : ℝ) - 1 - 9 / 80) * (2 * Real.pi) / (9 / 20))) ∧
    ((1 / 2 : ℝ) ≤ 3 / 4 ∧ (3 / 4 : ℝ) < 1 ∧ (1 / 2 : ℝ) < 3 / 4 ∧
      animationElasticEaseOut realMath (2 * (3 / 4) - 1) / 2 + 1 / 2
        = 1 / 2 * (2 : ℝ) ^ (-10 * (2 * (3 / 4 : ℝ) - 1))
            * Real.sin ((2 * (3 / 4 : ℝ) - 1 - 3 / 40) * (2 * Real.pi) / (3 / 10)) + 1) :=
  ⟨⟨by norm_num, by norm_num,
     ((elasticEaseInOut_half_curves_scaled_period (1 / 4)).1 (by norm_num) (by norm_num)).1⟩,
   ⟨by norm_num, by norm_num, by norm_num,
     ((elasticEaseInOut_half_curves_scaled_period (3 / 4)).2.1 (by norm_num) (by norm_num)).2
       (by norm_num)⟩⟩

/-! ### C8: where the curves are finite -/

/-- C8, as stated, fails: the three Circular curves are curves of the catalog and take
the square root of a negative number (`NaN`) at finite inputs outside `[0,1]`. -/
theorem circular_curves_nan_outside_unit_interval :
    AnimationCircularEaseIn realMath ∈ catalog realMath ∧
    AnimationCircularEaseIn realMath 2 = none ∧
    AnimationCircularEaseOut realMath (-1) = none ∧
    AnimationCircularEaseInOut realMath 2 = none ∧
    AnimationCircularEaseInOut realMath (-1) = none := by
  refine ⟨by simp [catalog], ?_, ?_, ?_, ?_⟩
  · have hn : (1 : ℝ) - 2 * 2 < 0 := by norm_num
    simp only [AnimationCircularEaseIn, animationCircularEaseIn, realMath_Sqrt_of_neg hn,
      Option.map_none']
  · have hn : (1 : ℝ) - (-1 - 1) * (-1 - 1) < 0 := by norm_num
    simp only [AnimationCircularEaseOut, animationCircularEaseOut, realMath_Sqrt_of_neg hn]
  · have hb : ¬ ((2 : ℝ) * 2 < 1) := by norm_num
    have hn : (1 : ℝ) - (2 * 2 - 2) * (2 * 2 - 2) < 0 := by norm_num
    simp only [AnimationCircularEaseInOut, animationCircularEaseInOut, if_neg hb,
      realMath_Sqrt_of_neg hn, Option.map_none']
  · have hb : (-1 : ℝ) * 2 < 1 := by norm_num
    have hn : (1 : ℝ) - -1 * 2 * (-1 * 2) < 0 := by norm_num
    simp only [AnimationCircularEaseInOut, animationCircularEaseInOut, if_pos hb,
      realMath_Sqrt_of_neg hn, Option.map_none']

/-- C8, amended. On the specified domain no curve takes the square root of a negative
number, so none produces `NaN` there: for every `t` with `0 ≤ t ≤ 1` every curve of the
catalog returns a finite value. The three Circular curves (entries 10 to 12 of the
catalog) are the only curves that call `math.Sqrt`: every other curve of the catalog is
the same function whatever `Sqrt` answers. Their square-root arguments are non-negative,
with a finite result, for `-1 ≤ t ≤ 1` (`animationCircularEaseIn`), for `0 ≤ t ≤ 2`
(`animationCircularEaseOut`) and for `-1/2 ≤ t ≤ 3/2` (`animationCircularEaseInOut`,
in the branch it takes). Nothing is stated about other inputs. -/
theorem curves_finite_on_domain :
    (∀ f ∈ catalog realMath, ∀ t : ℝ, 0 ≤ t → t ≤ 1 → ∃ y, f t = some y) ∧
    (((catalog realMath).drop 10).take 3
        = [AnimationCircularEaseInOut realMath, AnimationCircularEaseIn realMath,
            AnimationCircularEaseOut realMath] ∧
      ∀ S : ℝ → Option ℝ,
        (catalog { realMath with Sqrt := S }).take 10 = (catalog realMath).take 10 ∧
        (catalog { realMath with Sqrt := S }).drop 13 = (catalog realMath).drop 13) ∧
    (∀ t : ℝ,
      (-1 ≤ t → t ≤ 1 →
        0 ≤ 1 - t * t ∧ ∃ y, AnimationCircularEaseIn realMath t = some y) ∧
      (0 ≤ t → t ≤ 2 →
        0 ≤ 1 - (t - 1) * (t - 1) ∧ ∃ y, AnimationCircularEaseOut realMath t = some y) ∧
      (-(1 / 2) ≤ t → t ≤ 3 / 2 →
        (t * 2 < 1 → 0 ≤ 1 - t * 2 * (t * 2)) ∧
        (¬ t * 2 < 1 → 0 ≤ 1 - (t * 2 - 2) * (t * 2 - 2)) ∧
        ∃ y, AnimationCircularEaseInOut realMath t = some y)) := by
  have hin : ∀ t : ℝ, -1 ≤ t → t ≤ 1 →
      0 ≤ 1 - t * t ∧ ∃ y, AnimationCircularEaseIn realMath t = some y := by
    intro t h0 h1
    have hn : (0 : ℝ) ≤ 1 - t * t := by nlinarith
    refine ⟨hn, -(Real.sqrt (1 - t * t) - 1), ?_⟩
    simp only [AnimationCircularEaseIn, animationCircularEaseIn, realMath_Sqrt_of_nonneg hn,
      Option.map_some']
  have hout : ∀ t : ℝ, 0 ≤ t → t ≤ 2 →
      0 ≤ 1 - (t - 1) * (t - 1) ∧ ∃ y, AnimationCircularEaseOut realMath t = some y := by
    intro t h0 h1
    have hn : (0 : ℝ) ≤ 1 - (t - 1) * (t - 1) := by nlinarith
    refine ⟨hn, Real.sqrt (1 - (t - 1) * (t - 1)), ?_⟩
    simp only [AnimationCircularEaseOut, animationCircularEaseOut,
      realMath_Sqrt_of_nonneg hn]
  have hio : ∀ t : ℝ, -(1 / 2) ≤ t → t ≤ 3 / 2 →
      (t * 2 < 1 → 0 ≤ 1 - t * 2 * (t * 2)) ∧
      (¬ t * 2 < 1 → 0 ≤ 1 - (t * 2 - 2) * (t * 2 - 2)) ∧
      ∃ y, AnimationCircularEaseInOut realMath t = some y := by
    intro t h0 h1
    refine ⟨fun h => by nlinarith, fun h => ?_, _, animationCircularEaseInOut_eq_some h0 h1⟩
    have h2 : 1 ≤ t * 2 := not_lt.mp h
    nlinarith
  refine ⟨?_, ⟨rfl, fun S => ⟨rfl, rfl⟩⟩, fun t => ⟨hin t, hout t, hio t⟩⟩
  simp only [catalog, List.forall_mem_cons, List.not_mem_nil, false_imp_iff, implies_true,
    and_true]
  refine ⟨?_, ?_, ?_, ?_, ?_, ?_, ?_, ?_, ?_, ?_, ?_, ?_, ?_, ?_, ?_, ?_, ?_, ?_, ?_, ?_,
    ?_, ?_, ?_, ?_, ?_, ?_, ?_, ?_, ?_, ?_, ?_, ?_, ?_, ?_⟩
  case refine_11 =>
    intro t h0 h1
    exact (hio t (by linarith) (by linarith)).2.2
  case refine_12 =>
    intro t h0 h1
    exact (hin t (by linarith) h1).2
  case refine_13 =>
    intro t h0 h1
    exact (hout t h0 (by linarith)).2
  all_goals
    intro t _ _
    exact ⟨_, rfl⟩

/-- The amended C8 at `AnimationCircularEaseIn` and `t = 1/2`, and the Circular curves at
the ends of their wider ranges: `animationCircularEaseIn (-1)`,
`animationCircularEaseOut 2` and `animationCircularEaseInOut (3/2)` are finite. -/
theorem curves_finite_on_domain_witness :
    (AnimationCircularEaseIn realMath ∈ catalog realMath ∧ (0 : ℝ) ≤ 1 / 2 ∧
      (1 / 2 : ℝ) ≤ 1 ∧ ∃ y, AnimationCircularEaseIn realMath (1 / 2) = some y) ∧
    ((-1 : ℝ) ≤ -1 ∧ (-1 : ℝ) ≤ 1 ∧ ∃ y, AnimationCircularEaseIn realMath (-1) = some y) ∧
    ((0 : ℝ) ≤ 2 ∧ (2 : ℝ) ≤ 2 ∧ ∃ y, AnimationCircularEaseOut realMath 2 = some y) ∧
    (-(1 / 2 : ℝ) ≤ 3 / 2 ∧ (3 / 2 : ℝ) ≤ 3 / 2 ∧ ¬ ((3 / 2 : ℝ) * 2 < 1) ∧
      (0 : ℝ) ≤ 1 - (3 / 2 * 2 - 2) * (3 / 2 * 2 - 2) ∧
      ∃ y, AnimationCircularEaseInOut realMath (3 / 2) = some y) := by
  have hm : AnimationCircularEaseIn realMath ∈ catalog realMath := by simp [catalog]
  have hb : ¬ ((3 / 2 : ℝ) * 2 < 1) := by norm_num
  exact ⟨⟨hm, by norm_num, by norm_num,
      curves_finite_on_domain.1 _ hm (1 / 2) (by norm_num) (by norm_num)⟩,
    ⟨le_refl _, by norm_num,
      ((curves_finite_on_domain.2.2 (-1)).1 (le_refl _) (by norm_num)).2⟩,
    ⟨by norm_num, le_refl _,
      ((curves_finite_on_domain.2.2 2).2.1 (by norm_num) (le_refl _)).2⟩,
    ⟨by norm_num, le_refl _, hb,
      ((curves_finite_on_domain.2.2 (3 / 2)).2.2 (by norm_num) (le_refl _)).2.1 hb,
      ((curves_finite_on_domain.2.2 (3 / 2)).2.2 (by norm_num) (le_refl _)).2.2⟩⟩

/-! ### C9, C10: NewAnimation and the default curve -/

/-- C9. For every duration `d` and callback `fn`, `NewAnimation d fn` returns the address
of a newly allocated `Animation` whose `Duration` is `d` and whose `Tick` is `fn`, with
`RepeatCount = 0`, `AutoReverse = false` and `Curve` unset (`nil`); the state of the
driver is unchanged (no registration) and so is every animation allocated before. -/
theorem NewAnimation_creates_idle {K T D : Type} (d : Int) (fn : T) (app : App K T D) :
    (∃ a : Animation K T,
      (NewAnimation d fn app).2.heap[(NewAnimation d fn app).1]? = some a ∧
      a.Duration = d ∧ a.Tick = fn ∧ a.RepeatCount = 0 ∧ a.AutoReverse = false ∧
      a.Curve = none) ∧
    (NewAnimation d fn app).2.driver = app.driver ∧
    app.heap[(NewAnimation d fn app).1]? = none ∧
    ∀ p : Nat, p < app.heap.length → (NewAnimation d fn app).2.heap[p]? = app.heap[p]? := by
  refine ⟨⟨{ Duration := d, Tick := fn }, ?_, rfl, rfl, rfl, rfl, rfl⟩, rfl, ?_, ?_⟩
  · simp [NewAnimation]
  · simp [NewAnimation]
  · intro p hp
    simp only [NewAnimation]
    exact List.getElem?_append_left hp

/-- The animation `NewAnimation 1000 ()` allocates in a program state that already holds
one animation: the new one is at address `1`, the old one at address `0` is unchanged. -/
theorem NewAnimation_creates_idle_witness :
    (0 < (⟨[{ Duration := 5, Tick := () }], ()⟩ : App ℚ Unit Unit).heap.length) ∧
    (NewAnimation 1000 () (⟨[{ Duration := 5, Tick := () }], ()⟩ : App ℚ Unit Unit)).1 = 1 ∧
    (NewAnimation 1000 () (⟨[{ Duration := 5, Tick := () }], ()⟩ : App ℚ Unit Unit)).2.heap[0]?
      = (⟨[{ Duration := 5, Tick := () }], ()⟩ : App ℚ Unit Unit).heap[0]? ∧
    (NewAnimation 1000 () (⟨[{ Duration := 5, Tick := () }], ()⟩ : App ℚ Unit Unit)).2.driver
      = () :=
  ⟨by decide, rfl,
   (NewAnimation_creates_idle 1000 ()
      (⟨[{ Duration := 5, Tick := () }], ()⟩ : App ℚ Unit Unit)).2.2.2 0 (by decide),
   (NewAnimation_creates_idle 1000 ()
      (⟨[{ Duration := 5, Tick := () }], ()⟩ : App ℚ Unit Unit)).2.1⟩

/-- C10. An `Animation` whose `Curve` is unset uses `AnimationEaseInOut`; this holds in
particular for the animation that `NewAnimation` returns. A `Curve` that is set is the
one used. -/
theorem curve_defaults_to_easeInOut {K T D : Type} [LinearOrderedField K] :
    (∀ a : Animation K T, a.Curve = none → curveInUse a = AnimationEaseInOut) ∧
    (∀ (d : Int) (fn : T) (app : App K T D) (a : Animation K T),
      (NewAnimation d fn app).2.heap[(NewAnimation d fn app).1]? = some a →
      curveInUse a = AnimationEaseInOut) ∧
    (∀ (a : Animation K T) (c : AnimationCurve K), a.Curve = some c → curveInUse a = c) := by
  refine ⟨?_, ?_, ?_⟩
  · intro a h
    simp only [curveInUse, h]
  · intro d fn app a h
    have ha : a = { Duration := d, Tick := fn } := by
      simpa [NewAnimation] using h.symm
    rw [ha]
    rfl
  · intro a c h
    simp only [curveInUse, h]

/-- The default curve of the animation `NewAnimation 1000 ()` returns in an empty
program state, and of an animation whose curve was set to `AnimationLinear`. -/
theorem curve_defaults_to_easeInOut_witness :
    (({ Tick := () } : Animation ℚ Unit).Curve = none ∧
      curveInUse ({ Tick := () } : Animation ℚ Unit) = AnimationEaseInOut) ∧
    ((NewAnimation 1000 () (⟨[], ()⟩ : App ℚ Unit Unit)).2.heap[
        (NewAnimation 1000 () (⟨[], ()⟩ : App ℚ Unit Unit)).1]?
        = some { Duration := 1000, Tick := () } ∧
      curveInUse ({ Duration := 1000, Tick := () } : Animation ℚ Unit)
        = AnimationEaseInOut) ∧
    (({ Curve := some AnimationLinear, Tick := () } : Animation ℚ Unit).Curve
        = some AnimationLinear ∧
      curveInUse ({ Curve := some AnimationLinear, Tick := () } : Animation ℚ Unit)
        = AnimationLinear) :=
  ⟨⟨rfl, (@curve_defaults_to_easeInOut ℚ Unit Unit _).1 _ rfl⟩,
   ⟨rfl, (@curve_defaults_to_easeInOut ℚ Unit Unit _).2.1 1000 () ⟨[], ()⟩ _ rfl⟩,
   ⟨rfl, (@curve_defaults_to_easeInOut ℚ Unit Unit _).2.2 _ _ rfl⟩⟩

/-! ### C18: the Ease family and the Quadratic family -/

/-- C18. For every real `t`, `animationEaseIn t = animationQuadaticEaseIn t`,
`animationEaseOut t = animationQuadaticEaseOut t` and
`animationEaseInOut t = animationQuadaticEaseInOut t`; at `t = 0.5`, where the first
InOut function takes its first branch (`<=`) and the second its second branch (`<`),
both return `0.5`. -/
theorem ease_eq_quadratic (t : ℝ) :
    animationEaseIn t = animationQuadaticEaseIn t ∧
    animationEaseOut t = animationQuadaticEaseOut t ∧
    animationEaseInOut t = animationQuadaticEaseInOut t ∧
    animationEaseInOut (0.5 : ℝ) = 0.5 ∧ animationQuadaticEaseInOut (0.5 : ℝ) = 0.5 := by
  refine ⟨rfl, ?_, ?_, ?_, ?_⟩
  · simp only [animationEaseOut, animationQuadaticEaseOut]
    ring
  · simp only [animationEaseInOut, animationQuadaticEaseInOut]
    rcases lt_trichotomy t 0.5 with h | h | h
    · rw [if_pos h.le, if_pos h]
      ring
    · rw [if_pos h.le, if_neg (not_lt.mpr h.ge), h]
      norm_num
    · rw [if_neg (not_le.mpr h), if_neg (not_lt.mpr h.le)]
      ring
  · norm_num [animationEaseInOut]
  · norm_num [animationQuadaticEaseInOut]

/-! ### C19: time reversal in the Ease and Back families -/

/-- C19. For every real `t`, `animationEaseOut t = 1 - animationEaseIn (1 - t)` and
`animationBackEaseOut t = 1 - animationBackEaseIn (1 - t)`. -/
theorem ease_back_time_reversal (t : ℝ) :
    animationEaseOut t = 1 - animationEaseIn (1 - t) ∧
    animationBackEaseOut t = 1 - animationBackEaseIn (1 - t) := by
  simp only [animationEaseOut, animationEaseIn, animationBackEaseOut, animationBackEaseIn]
  constructor <;> ring

/-! ### C15: the Back curves leave `[0,1]` -/

/-- C15. Each Back curve leaves `[0,1]` inside the animation: `animationBackEaseIn` is
negative at `t = 1/2`, `animationBackEaseOut` exceeds `1` at `t = 1/2`, and
`animationBackEaseInOut` is negative at `t = 1/4` in `(0, 1/2)` and exceeds `1` at
`t = 3/4` in `(1/2, 1)`. -/
theorem back_curves_overshoot :
    (∃ t : ℝ, 0 < t ∧ t < 1 ∧ animationBackEaseIn t < 0) ∧
    (∃ t : ℝ, 0 < t ∧ t < 1 ∧ 1 < animationBackEaseOut t) ∧
    (∃ t : ℝ, 0 < t ∧ t < 1 / 2 ∧ animationBackEaseInOut t < 0) ∧
    (∃ t : ℝ, 1 / 2 < t ∧ t < 1 ∧ 1 < animationBackEaseInOut t) := by
  refine ⟨⟨1 / 2, by norm_num, by norm_num, ?_⟩, ⟨1 / 2, by norm_num, by norm_num, ?_⟩,
    ⟨1 / 4, by norm_num, by norm_num, ?_⟩, ⟨3 / 4, by norm_num, by norm_num, ?_⟩⟩
  · norm_num [animationBackEaseIn]
  · norm_num [animationBackEaseOut]
  · norm_num [animationBackEaseInOut]
  · norm_num [animationBackEaseInOut]

/-! ### C16: the Circular curves as quarter-circle arcs -/

/-- C16. For every `t` in `[0,1]` the arguments of both square roots are non-negative,
`animationCircularEaseIn t` and `animationCircularEaseOut t` are finite values `a` and
`b` with `t ^ 2 + (1 - a) ^ 2 = 1` and `(t - 1) ^ 2 + b ^ 2 = 1`, and both lie in
`[0,1]`. -/
theorem circular_quarter_arcs (t : ℝ) (h0 : 0 ≤ t) (h1 : t ≤ 1) :
    0 ≤ 1 - t * t ∧ 0 ≤ 1 - (t - 1) * (t - 1) ∧
    ∃ a b : ℝ, animationCircularEaseIn realMath t = some a ∧
      animationCircularEaseOut realMath t = some b ∧
      t ^ 2 + (1 - a) ^ 2 = 1 ∧ (t - 1) ^ 2 + b ^ 2 = 1 ∧
      (0 ≤ a ∧ a ≤ 1) ∧ (0 ≤ b ∧ b ≤ 1) := by
  have hi : (0 : ℝ) ≤ 1 - t * t := by nlinarith
  have ho : (0 : ℝ) ≤ 1 - (t - 1) * (t - 1) := by nlinarith
  have si := Real.sq_sqrt hi
  have so := Real.sq_sqrt ho
  have pi := Real.sqrt_nonneg (1 - t * t)
  have po := Real.sqrt_nonneg (1 - (t - 1) * (t - 1))
  have ui : Real.sqrt (1 - t * t) ≤ 1 :=
    Real.sqrt_le_iff.mpr ⟨zero_le_one, by nlinarith⟩
  have uo : Real.sqrt (1 - (t - 1) * (t - 1)) ≤ 1 :=
    Real.sqrt_le_iff.mpr ⟨zero_le_one, by nlinarith⟩
  refine ⟨hi, ho, -(Real.sqrt (1 - t * t) - 1), Real.sqrt (1 - (t - 1) * (t - 1)), ?_, ?_,
    ?_, ?_, ⟨?_, ?_⟩, ⟨po, uo⟩⟩
  · simp only [animationCircularEaseIn, realMath_Sqrt_of_nonneg hi, Option.map_some']
  · simp only [animationCircularEaseOut, realMath_Sqrt_of_nonneg ho]
  · nlinarith
  · nlinarith
  · linarith
  · linarith

/-- The quarter-circle arcs at `t = 3/5`, where the results are `1/5` and `√(21/25)`. -/
theorem circular_quarter_arcs_witness :
    (0 : ℝ) ≤ 3 / 5 ∧ (3 / 5 : ℝ) ≤ 1 ∧
    ∃ a b : ℝ, animationCircularEaseIn realMath (3 / 5) = some a ∧
      animationCircularEaseOut realMath (3 / 5) = some b ∧
      (3 / 5 : ℝ) ^ 2 + (1 - a) ^ 2 = 1 ∧ ((3 / 5 : ℝ) - 1) ^ 2 + b ^ 2 = 1 ∧
      (0 ≤ a ∧ a ≤ 1) ∧ (0 ≤ b ∧ b ≤ 1) :=
  ⟨by norm_num, by norm_num,
    (circular_quarter_arcs (3 / 5) (by norm_num) (by norm_num)).2.2⟩

/-! ### C17: the Bounce curves stay in `[0,1]` -/

theorem animationBounceEaseOut_mem_unit {t : ℝ} (h0 : 0 ≤ t) (h1 : t ≤ 1) :
    0 ≤ animationBounceEaseOut t ∧ animationBounceEaseOut t ≤ 1 := by
  unfold animationBounceEaseOut
  simp only []
  split_ifs with c1 c2 c3
  · have c : t < 4 / 11 := by norm_num at c1; linarith
    constructor
    · nlinarith [mul_nonneg h0 h0]
    · nlinarith [mul_nonneg h0 h0]
  · have a : 4 / 11 ≤ t := by norm_num at c1; linarith
    have b : t < 8 / 11 := by norm_num at c2; linarith
    constructor
    · nlinarith [sq_nonneg (t - 1.5 / 2.75)]
    · norm_num
      nlinarith
  · have a : 8 / 11 ≤ t := by norm_num at c2; linarith
    have b : t < 10 / 11 := by norm_num at c3; linarith
    constructor
    · nlinarith [sq_nonneg (t - 2.25 / 2.75)]
    · norm_num
      nlinarith
  · have a : 10 / 11 ≤ t := by norm_num at c3; linarith
    constructor
    · nlinarith [sq_nonneg (t - 2.625 / 2.75)]
    · norm_num
      nlinarith

/-- C17. For every `t` in `[0,1]`, `animationBounceEaseOut t`, `animationBounceEaseIn t`
and `animationBounceEaseInOut t` lie in `[0,1]`; `animationBounceEaseOut` is continuous
(its four parabolic segments meet) and is exactly `1` at `t = 1/2.75`, `2/2.75`,
`2.5/2.75` and `1`. -/
theorem bounce_curves_within_unit (t : ℝ) (h0 : 0 ≤ t) (h1 : t ≤ 1) :
    (0 ≤ animationBounceEaseOut t ∧ animationBounceEaseOut t ≤ 1) ∧
    (0 ≤ animationBounceEaseIn t ∧ animationBounceEaseIn t ≤ 1) ∧
    (0 ≤ animationBounceEaseInOut t ∧ animationBounceEaseInOut t ≤ 1) ∧
    Continuous (animationBounceEaseOut : ℝ → ℝ) ∧
    animationBounceEaseOut (1 / 2.75 : ℝ) = 1 ∧ animationBounceEaseOut (2 / 2.75 : ℝ) = 1 ∧
    animationBounceEaseOut (2.5 / 2.75 : ℝ) = 1 ∧ animationBounceEaseOut (1 : ℝ) = 1 := by
  have hin : ∀ u : ℝ, 0 ≤ u → u ≤ 1 →
      0 ≤ animationBounceEaseIn u ∧ animationBounceEaseIn u ≤ 1 := by
    intro u hu0 hu1
    have h := animationBounceEaseOut_mem_unit (t := 1 - u) (by linarith) (by linarith)
    unfold animationBounceEaseIn
    constructor <;> linarith [h.1, h.2]
  refine ⟨animationBounceEaseOut_mem_unit h0 h1, hin t h0 h1, ?_,
    animationBounceEaseOut_continuous, ?_, ?_, ?_, ?_⟩
  · unfold animationBounceEaseInOut
    simp only []
    split_ifs with c
    · have h := hin (t * 2) (by linarith) (by linarith)
      constructor
      · nlinarith [h.1]
      · norm_num
        linarith [h.2]
    · have c2 : 1 ≤ t * 2 := not_lt.mp c
      have h := animationBounceEaseOut_mem_unit (t := t * 2 - 1) (by linarith) (by linarith)
      constructor
      · norm_num
        linarith [h.1]
      · norm_num
        linarith [h.2]
  · norm_num [animationBounceEaseOut]
  · norm_num [animationBounceEaseOut]
  · norm_num [animationBounceEaseOut]
  · norm_num [animationBounceEaseOut]

/-- The Bounce bounds at `t = 1/2`. -/
theorem bounce_curves_within_unit_witness :
    (0 : ℝ) ≤ 1 / 2 ∧ (1 / 2 : ℝ) ≤ 1 ∧
    (0 ≤ animationBounceEaseOut (1 / 2 : ℝ) ∧ animationBounceEaseOut (1 / 2 : ℝ) ≤ 1) ∧
    (0 ≤ animationBounceEaseIn (1 / 2 : ℝ) ∧ animationBounceEaseIn (1 / 2 : ℝ) ≤ 1) ∧
    (0 ≤ animationBounceEaseInOut (1 / 2 : ℝ) ∧ animationBounceEaseInOut (1 / 2 : ℝ) ≤ 1) :=
  have h := bounce_curves_within_unit (1 / 2) (by norm_num) (by norm_num)
  ⟨by norm_num, by norm_num, h.1, h.2.1, h.2.2.1⟩

/-! ### C14: the polynomial curves are monotone on `[0,1]` -/

theorem mul_self_mono {a b : ℝ} (h0 : 0 ≤ a) (h : a ≤ b) : a * a ≤ b * b :=
  mul_le_mul h h h0 (h0.trans h)

theorem cube_mono {a b : ℝ} (h0 : 0 ≤ a) (h : a ≤ b) : a * a * a ≤ b * b * b :=
  mul_le_mul (mul_self_mono h0 h) h h0 (mul_nonneg (h0.trans h) (h0.trans h))

theorem fourth_mono {a b : ℝ} (h0 : 0 ≤ a) (h : a ≤ b) : a * a * a * a ≤ b * b * b * b :=
  mul_le_mul (cube_mono h0 h) h h0
    (mul_nonneg (mul_nonneg (h0.trans h) (h0.trans h)) (h0.trans h))

theorem fifth_mono {a b : ℝ} (h0 : 0 ≤ a) (h : a ≤ b) :
    a * a * a * a * a ≤ b * b * b * b * b :=
  mul_le_mul (fourth_mono h0 h) h h0
    (mul_nonneg (mul_nonneg (mul_nonneg (h0.trans h) (h0.trans h)) (h0.trans h))
      (h0.trans h))

theorem polynomial_curves_mono_aux :
    ∀ f ∈ (polynomialCurves : List (ℝ → ℝ)), ∀ x y : ℝ, 0 ≤ x → x ≤ y → y ≤ 1 →
      f x ≤ f y := by
  simp only [polynomialCurves, List.forall_mem_cons, List.not_mem_nil, false_imp_iff,
    implies_true, and_true]
  refine ⟨?_, ?_, ?_, ?_, ?_, ?_, ?_, ?_, ?_, ?_, ?_, ?_, ?_, ?_, ?_, ?_⟩
  all_goals
    intro x y h0 hxy h1
    have hx1 : (0 : ℝ) ≤ 1 - y := by linarith
    have hyx : (1 : ℝ) - y ≤ 1 - x := by linarith
    have e2 := mul_self_mono h0 hxy
    have e3 := cube_mono h0 hxy
    have e4 := fourth_mono h0 hxy
    have e5 := fifth_mono h0 hxy
    have o2 := mul_self_mono hx1 hyx
    have o3 := cube_mono hx1 hyx
    have o4 := fourth_mono hx1 hyx
    have o5 := fifth_mono hx1 hyx
  · exact hxy
  · simp only [animationEaseIn]
    linarith
  · simp only [animationEaseOut]
    linarith
  · simp only [animationEaseInOut]
    split_ifs with c1 c2 c2
    · linarith
    · norm_num at c1 c2
      nlinarith
    · norm_num at c1 c2
      linarith
    · linarith
  · simp only [animationQuadaticEaseIn]
    linarith
  · simp only [animationQuadaticEaseOut]
    linarith
  · simp only [animationQuadaticEaseInOut]
    split_ifs with c1 c2 c2
    · linarith
    · norm_num at c1 c2
      nlinarith
    · norm_num at c1 c2
      linarith
    · linarith
  · simp only [animationCubicEaseIn]
    linarith
  · simp only [animationCubicEaseOut]
    linarith
  · simp only [animationCubicEaseInOut]
    split_ifs with c1 c2 c2
    · linarith
    · norm_num at c1 c2
      have a1 := cube_mono h0 c1.le
      have a2 := cube_mono hx1 (by linarith : 1 - y ≤ 1 / 2)
      linarith
    · norm_num at c1 c2
      linarith
    · linarith
  · simp only [animationQuarticEaseIn]
    linarith
  · simp only [animationQuarticEaseOut]
    linarith
  · simp only [animationQuarticEaseInOut]
    split_ifs with c1 c2 c2
    · linarith
    · norm_num at c1 c2
      have a1 := fourth_mono h0 c1.le
      have a2 := fourth_mono hx1 (by linarith : 1 - y ≤ 1 / 2)
      linarith
    · norm_num at c1 c2
      linarith
    · linarith
  · simp only [animationQuinticEaseIn]
    linarith
  · simp only [animationQuinticEaseOut]
    linarith
  · simp only [animationQuinticEaseInOut]
    split_ifs with c1 c2 c2
    · linarith
    · norm_num at c1 c2
      have a1 := fifth_mono h0 c1.le
      have a2 := fifth_mono hx1 (by linarith : 1 - y ≤ 1 / 2)
      linarith
    · norm_num at c1 c2
      linarith
    · linarith

/-- C14. Each non-overshooting polynomial curve `f` (Linear, the Ease family, and the In,
Out and InOut curves of Quadratic, Cubic, Quartic and Quintic) is monotonically
non-decreasing on `[0,1]`: for all `0 ≤ x ≤ y ≤ 1`, `f x ≤ f y`; hence the eased
progress stays between `f 0` and `f 1`. -/
theorem polynomial_curves_monotone :
    ∀ f ∈ (polynomialCurves : List (ℝ → ℝ)), ∀ x y : ℝ, 0 ≤ x → x ≤ y → y ≤ 1 →
      f x ≤ f y ∧ (f 0 ≤ f x ∧ f x ≤ f 1) := by
  intro f hf x y h0 hxy h1
  exact ⟨polynomial_curves_mono_aux f hf x y h0 hxy h1,
    polynomial_curves_mono_aux f hf 0 x le_rfl h0 (hxy.trans h1),
    polynomial_curves_mono_aux f hf x 1 h0 (hxy.trans h1) le_rfl⟩

/-- Monotonicity of `animationQuinticEaseInOut` between `x = 1/4` and `y = 3/4`. -/
theorem polynomial_curves_monotone_witness :
    (animationQuinticEaseInOut : ℝ → ℝ) ∈ (polynomialCurves : List (ℝ → ℝ)) ∧
    (0 : ℝ) ≤ 1 / 4 ∧ (1 / 4 : ℝ) ≤ 3 / 4 ∧ (3 / 4 : ℝ) ≤ 1 ∧
    animationQuinticEaseInOut (1 / 4 : ℝ) ≤ animationQuinticEaseInOut (3 / 4 : ℝ) :=
  have hm : (animationQuinticEaseInOut : ℝ → ℝ) ∈ (polynomialCurves : List (ℝ → ℝ)) := by
    simp [polynomialCurves]
  ⟨hm, by norm_num, by norm_num, by norm_num,
    (polynomial_curves_monotone _ hm (1 / 4) (3 / 4) (by norm_num) (by norm_num)
      (by norm_num)).1⟩

/-! ### C11, C12: Start and Stop -/

theorem filter_ne_eq_self (reg : List Nat) (a : Nat) (h : a ∉ reg) :
    reg.filter (fun b => b ≠ a) = reg := by
  rw [List.filter_eq_self]
  intro b hb
  have : b ≠ a := fun e => h (e ▸ hb)
  simpa using this

theorem not_mem_filter_ne (reg : List Nat) (a : Nat) : a ∉ reg.filter (fun b => b ≠ a) := by
  simp [List.mem_filter]

/-- C11. With the driver modelled as the set of registered animations, after `Start`
followed by `Start` the animation is registered exactly once (and the state is that
after one `Start`), after `Start` followed by `Stop` it is not registered, `Stop` on an
animation that is not registered leaves the registration set unchanged, and `Stop`
followed by `Stop` is one `Stop`. -/
theorem start_stop_idempotent {K T : Type} (a : Nat) (app : App K T (List Nat)) :
    (Animation.Start registrationDriver a
        (Animation.Start registrationDriver a app)).driver.count a = 1 ∧
    Animation.Start registrationDriver a (Animation.Start registrationDriver a app)
      = Animation.Start registrationDriver a app ∧
    a ∉ (Animation.Stop registrationDriver a
        (Animation.Start registrationDriver a app)).driver ∧
    (a ∉ app.driver → Animation.Stop registrationDriver a app = app) ∧
    Animation.Stop registrationDriver a (Animation.Stop registrationDriver a app)
      = Animation.Stop registrationDriver a app := by
  have hf := not_mem_filter_ne app.driver a
  have e1 : (app.driver.filter (fun b => b ≠ a) ++ [a]).filter (fun b => b ≠ a)
      = app.driver.filter (fun b => b ≠ a) := by
    rw [List.filter_append, filter_ne_eq_self _ a hf]
    simp
  refine ⟨?_, ?_, ?_, ?_, ?_⟩
  · simp only [Animation.Start, registrationDriver, e1]
    rw [List.count_append, List.count_eq_zero_of_not_mem hf]
    simp
  · simp only [Animation.Start, registrationDriver, e1]
  · simp only [Animation.Start, Animation.Stop, registrationDriver, e1]
    exact hf
  · intro h
    simp only [Animation.Stop, registrationDriver, filter_ne_eq_self _ a h]
  · simp only [Animation.Stop, registrationDriver]
    rw [filter_ne_eq_self _ a hf]

/-- The registration set `[3, 5]`: starting animation `7` twice registers it once, and
stopping animation `7`, which is not registered, changes nothing. -/
theorem start_stop_idempotent_witness :
    (7 ∉ (⟨[], [3, 5]⟩ : App ℚ Unit (List Nat)).driver) ∧
    Animation.Stop registrationDriver 7 (⟨[], [3, 5]⟩ : App ℚ Unit (List Nat))
      = ⟨[], [3, 5]⟩ ∧
    (Animation.Start registrationDriver 7
      (Animation.Start registrationDriver 7
        (⟨[], [3, 5]⟩ : App ℚ Unit (List Nat)))).driver = [3, 5, 7] :=
  ⟨by decide,
   (start_stop_idempotent 7 (⟨[], [3, 5]⟩ : App ℚ Unit (List Nat))).2.2.2.1 (by decide),
   by decide⟩

/-- C12. For every driver, `Stop` and likewise `Start` leave every allocated `Animation`
unchanged: the values of `AutoReverse`, `Curve`, `Duration`, `RepeatCount` and `Tick` of
the animation (and of every other one) after the call equal their values before. -/
theorem start_stop_keep_configuration {K T D : Type} (drv : Driver D) (a : Nat)
    (app : App K T D) :
    (Animation.Stop drv a app).heap = app.heap ∧
    (Animation.Start drv a app).heap = app.heap ∧
    ∀ x : Animation K T, app.heap[a]? = some x →
      (∃ y, (Animation.Stop drv a app).heap[a]? = some y ∧
        y.AutoReverse = x.AutoReverse ∧ y.Curve = x.Curve ∧ y.Duration = x.Duration ∧
        y.RepeatCount = x.RepeatCount ∧ y.Tick = x.Tick) ∧
      (∃ y, (Animation.Start drv a app).heap[a]? = some y ∧
        y.AutoReverse = x.AutoReverse ∧ y.Curve = x.Curve ∧ y.Duration = x.Duration ∧
        y.RepeatCount = x.RepeatCount ∧ y.Tick = x.Tick) := by
  refine ⟨rfl, rfl, ?_⟩
  intro x hx
  exact ⟨⟨x, hx, rfl, rfl, rfl, rfl, rfl⟩, ⟨x, hx, rfl, rfl, rfl, rfl, rfl⟩⟩

/-- Stopping and starting the animation at address `0` of a one-animation program. -/
theorem start_stop_keep_configuration_witness :
    (⟨[{ Duration := 5, RepeatCount := 2, Tick := () }], []⟩ : App ℚ Unit (List Nat)).heap[0]?
      = some { Duration := 5, RepeatCount := 2, Tick := () } ∧
    ∃ y, (Animation.Stop registrationDriver 0
        (⟨[{ Duration := 5, RepeatCount := 2, Tick := () }], []⟩ :
          App ℚ Unit (List Nat))).heap[0]? = some y ∧
      y.AutoReverse = false ∧ y.Curve = none ∧ y.Duration = 5 ∧ y.RepeatCount = 2 ∧
      y.Tick = () :=
  ⟨rfl, ((start_stop_keep_configuration registrationDriver 0
      (⟨[{ Duration := 5, RepeatCount := 2, Tick := () }], []⟩ :
        App ℚ Unit (List Nat))).2.2 _ rfl).1⟩

/-! ### C13: the repeat policy -/

theorem linearProgress_lt_one_iff {K T : Type} [LinearOrderedField K] (a : Animation K T)
    (now : Int) (r : Run) :
    linearProgress a now r < (1 : K) ↔ 0 < a.Duration ∧ now - r.startTime < a.Duration := by
  unfold linearProgress
  by_cases hd : a.Duration ≤ 0
  · simp only [if_pos hd, lt_irrefl, false_iff, not_and, not_lt]
    intro h
    exact absurd h (not_lt.mpr hd)
  · have hpos : 0 < a.Duration := not_le.mp hd
    have hposK : (0 : K) < (a.Duration : K) := by exact_mod_cast hpos
    simp only [if_neg hd, max_lt_iff, min_lt_iff, lt_irrefl, false_or, zero_lt_one, true_and,
      hpos]
    rw [div_lt_one hposK]
    exact Int.cast_lt

theorem tick_cycleDone_iff {K T : Type} [LinearOrderedField K] (a : Animation K T)
    (now : Int) (r : Run) :
    (tick a now r).cycleDone = true ↔ a.Duration ≤ 0 ∨ a.Duration ≤ now - r.startTime := by
  have h := linearProgress_lt_one_iff a now r
  unfold tick
  simp only []
  by_cases hl : linearProgress a now r < (1 : K)
  · rw [if_pos hl]
    have h2 := h.mp hl
    simp only [Bool.false_eq_true, false_iff, not_or, not_le]
    exact h2
  · rw [if_neg hl]
    have h2 : ¬ (0 < a.Duration ∧ now - r.startTime < a.Duration) := fun c => hl (h.mpr c)
    have h3 : a.Duration ≤ 0 ∨ a.Duration ≤ now - r.startTime := by
      by_contra c
      simp only [not_or, not_le] at c
      exact h2 c
    split_ifs <;> simp [h3]

/-- The three cases of the repeat policy of one tick. -/
theorem tick_cases {K T : Type} [LinearOrderedField K] (a : Animation K T) (now : Int)
    (r : Run) :
    ((tick a now r).cycleDone = false ∧ (tick a now r).finished = false ∧
      (tick a now r).run = r) ∨
    ((tick a now r).cycleDone = true ∧ (tick a now r).finished = false ∧
      (a.RepeatCount = AnimationRepeatForever ∨ r.currentRepetition + 1 ≤ a.RepeatCount) ∧
      (tick a now r).run =
        { startTime := now, currentRepetition := r.currentRepetition + 1,
          backward := if a.AutoReverse then !r.backward else r.backward }) ∨
    ((tick a now r).cycleDone = true ∧ (tick a now r).finished = true ∧
      ¬ (a.RepeatCount = AnimationRepeatForever ∨ r.currentRepetition + 1 ≤ a.RepeatCount) ∧
      (tick a now r).run = { r with currentRepetition := r.currentRepetition + 1 }) := by
  unfold tick
  simp only []
  by_cases hl : linearProgress a now r < (1 : K)
  · rw [if_pos hl]
    exact Or.inl ⟨rfl, rfl, rfl⟩
  · rw [if_neg hl]
    by_cases hc : a.RepeatCount = AnimationRepeatForever ∨
        r.currentRepetition + 1 ≤ a.RepeatCount
    · rw [if_pos hc]
      exact Or.inr (Or.inl ⟨rfl, rfl, hc, rfl⟩)
    · rw [if_neg hc]
      exact Or.inr (Or.inr ⟨rfl, rfl, hc, rfl⟩)

theorem runTicks_cons_of_continue {K T : Type} [LinearOrderedField K] (a : Animation K T)
    (now : Int) (rest : List Int) (r : Run) (h : (tick a now r).finished = false) :
    runTicks a r (now :: rest) = tick a now r :: runTicks a (tick a now r).run rest := by
  rw [runTicks, if_neg (by simp [h])]

theorem runTicks_cons_of_finished {K T : Type} [LinearOrderedField K] (a : Animation K T)
    (now : Int) (rest : List Int) (r : Run) (h : (tick a now r).finished = true) :
    runTicks a r (now :: rest) = [tick a now r] := by
  rw [runTicks, if_pos h]

theorem runTicks_counts {K T : Type} [LinearOrderedField K] (a : Animation K T) (n : Nat)
    (hN : a.RepeatCount = (n : Int)) :
    ∀ (nows : List Int) (r : Run), 0 ≤ r.currentRepetition → r.currentRepetition ≤ n →
      (cyclesCompleted (runTicks a r nows) : Int)
        = cyclesRestarted (runTicks a r nows)
          + (if reportsFinished (runTicks a r nows) = true then 1 else 0) ∧
      (cyclesRestarted (runTicks a r nows) : Int) ≤ n - r.currentRepetition ∧
      (reportsFinished (runTicks a r nows) = true ↔
        (cyclesCompleted (runTicks a r nows) : Int) = n + 1 - r.currentRepetition) := by
  have hnf : a.RepeatCount ≠ AnimationRepeatForever := by
    rw [hN]
    unfold AnimationRepeatForever
    omega
  intro nows
  induction nows with
  | nil =>
    intro r h0 hk
    simp only [runTicks, cyclesCompleted, cyclesRestarted, reportsFinished, List.countP_nil,
      List.any_nil, Nat.cast_zero, Bool.false_eq_true, if_false, add_zero, true_and, false_iff]
    constructor <;> omega
  | cons now rest ih =>
    intro r h0 hk
    rcases tick_cases a now r with ⟨hd, hf, hr⟩ | ⟨hd, hf, hc, hr⟩ | ⟨hd, hf, hc, _⟩
    · rw [runTicks_cons_of_continue a now rest r hf, hr]
      have := ih r h0 hk
      simp only [cyclesCompleted, cyclesRestarted, reportsFinished, List.countP_cons,
        List.any_cons, hd, hf, Bool.false_eq_true, if_false, add_zero, Bool.false_or,
        Bool.false_and] at this ⊢
      exact this
    · rw [runTicks_cons_of_continue a now rest r hf]
      have hle : r.currentRepetition + 1 ≤ n := by
        rcases hc with hc | hc
        · exact absurd hc hnf
        · rw [hN] at hc
          exact hc
      have hcr : (tick a now r).run.currentRepetition = r.currentRepetition + 1 := by
        rw [hr]
      have := ih (tick a now r).run (by rw [hcr]; omega) (by rw [hcr]; exact hle)
      rw [hcr] at this
      simp only [cyclesCompleted, cyclesRestarted, reportsFinished, List.countP_cons,
        List.any_cons, hd, hf, Bool.false_or, Bool.not_false, Bool.and_true, if_true,
        Nat.cast_add, Nat.cast_one] at this ⊢
      obtain ⟨e1, e2, e3⟩ := this
      refine ⟨by omega, by omega, ?_⟩
      rw [e3]
      constructor <;> intro h <;> omega
    · rw [runTicks_cons_of_finished a now rest r hf]
      have hk2 : r.currentRepetition = n := by
        have : ¬ r.currentRepetition + 1 ≤ a.RepeatCount := fun c => hc (Or.inr c)
        rw [hN] at this
        omega
      simp only [cyclesCompleted, cyclesRestarted, reportsFinished, List.countP_cons,
        List.countP_nil, List.any_cons, List.any_nil, hd, hf, Bool.or_false, Bool.not_true,
        Bool.and_false, Bool.false_eq_true, if_true, if_false, Nat.cast_zero, Nat.cast_one,
        zero_add, true_iff]
      exact ⟨trivial, by omega, by omega⟩

theorem runTicks_forever {K T : Type} [LinearOrderedField K] (a : Animation K T)
    (hN : a.RepeatCount = AnimationRepeatForever) :
    ∀ (nows : List Int) (r : Run), reportsFinished (runTicks a r nows) = false := by
  intro nows
  induction nows with
  | nil =>
    intro r
    rfl
  | cons now rest ih =>
    intro r
    rcases tick_cases a now r with ⟨_, hf, _⟩ | ⟨_, hf, _, _⟩ | ⟨_, _, hc, _⟩
    · rw [runTicks_cons_of_continue a now rest r hf]
      simp only [reportsFinished, List.any_cons, hf, Bool.false_or]
      exact ih _
    · rw [runTicks_cons_of_continue a now rest r hf]
      simp only [reportsFinished, List.any_cons, hf, Bool.false_or]
      exact ih _
    · exact absurd (Or.inl hN) hc

theorem runTicks_cycleEnds_finishes {K T : Type} [LinearOrderedField K] (a : Animation K T)
    (n : Nat) (hN : a.RepeatCount = (n : Int)) :
    ∀ (m : Nat) (r : Run), r.currentRepetition + m = n →
      reportsFinished (runTicks a r (cycleEnds a.Duration r.startTime (m + 1))) = true := by
  have hnf : a.RepeatCount ≠ AnimationRepeatForever := by
    rw [hN]
    unfold AnimationRepeatForever
    omega
  intro m
  induction m with
  | zero =>
    intro r hk
    have hdone : (tick a (r.startTime + a.Duration) r).cycleDone = true :=
      (tick_cycleDone_iff a _ r).mpr (Or.inr (by omega))
    rcases tick_cases a (r.startTime + a.Duration) r with
      ⟨hd, _, _⟩ | ⟨_, _, hc, _⟩ | ⟨_, hf, _, _⟩
    · rw [hdone] at hd
      exact absurd hd (by simp)
    · rcases hc with hc | hc
      · exact absurd hc hnf
      · rw [hN] at hc
        simp only [Nat.cast_zero, add_zero] at hk
        omega
    · simp only [cycleEnds]
      rw [runTicks_cons_of_finished a _ _ r hf]
      simp only [reportsFinished, List.any_cons, hf, Bool.true_or]
  | succ m ih =>
    intro r hk
    have hdone : (tick a (r.startTime + a.Duration) r).cycleDone = true :=
      (tick_cycleDone_iff a _ r).mpr (Or.inr (by omega))
    rcases tick_cases a (r.startTime + a.Duration) r with
      ⟨hd, _, _⟩ | ⟨_, hf, _, hr⟩ | ⟨_, _, hc, _⟩
    · rw [hdone] at hd
      exact absurd hd (by simp)
    · rw [cycleEnds, runTicks_cons_of_continue a _ _ r hf]
      simp only [reportsFinished, List.any_cons, hf, Bool.false_or]
      have hst : (tick a (r.startTime + a.Duration) r).run.startTime
          = r.startTime + a.Duration := by
        rw [hr]
      have hcr : (tick a (r.startTime + a.Duration) r).run.currentRepetition
          = r.currentRepetition + 1 := by
        rw [hr]
      have := ih (tick a (r.startTime + a.Duration) r).run (by
        rw [hcr]
        push_cast at hk
        omega)
      rw [hst] at this
      exact this
    · exfalso
      apply hc
      right
      rw [hN]
      push_cast at hk
      omega

theorem runTicks_forward {K T : Type} [LinearOrderedField K] (a : Animation K T)
    (hA : a.AutoReverse = false) :
    ∀ (nows : List Int) (r : Run), r.backward = false →
      ∀ res ∈ runTicks a r nows, res.run.backward = false := by
  intro nows
  induction nows with
  | nil =>
    intro r _ res hres
    simp [runTicks] at hres
  | cons now rest ih =>
    intro r hb res hres
    rcases tick_cases a now r with ⟨_, hf, hr⟩ | ⟨_, hf, _, hr⟩ | ⟨_, hf, _, hr⟩
    · rw [runTicks_cons_of_continue a now rest r hf, List.mem_cons] at hres
      rcases hres with e | hm
      · rw [e, hr]
        exact hb
      · exact ih _ (by rw [hr]; exact hb) res hm
    · have hb2 : (tick a now r).run.backward = false := by
        rw [hr]
        simp only [hA, Bool.false_eq_true, if_false]
        exact hb
      rw [runTicks_cons_of_continue a now rest r hf, List.mem_cons] at hres
      rcases hres with e | hm
      · rw [e]
        exact hb2
      · exact ih _ hb2 res hm
    · rw [runTicks_cons_of_finished a now rest r hf, List.mem_singleton] at hres
      rw [hres, hr]
      exact hb

theorem linearProgress_after_restart {K T : Type} [LinearOrderedField K]
    (a : Animation K T) (now : Int) (r : Run) (hd : 0 < a.Duration)
    (hs : r.startTime = now) : linearProgress a now r = (0 : K) := by
  unfold linearProgress
  simp only [if_neg (not_le.mpr hd), hs, sub_self, Int.cast_zero, zero_div]
  simp

/-- C13. Repeat policy. For an animation with `RepeatCount = n ≥ 0` and
`AutoReverse = false`, started at `t0` and ticked at any instants `nows` until it
reports finished: at most `n + 1` cycles complete and at most `n` new cycles begin, the
direction stays forward, finished is reported exactly when the cycle `n + 1` completes,
and then exactly `n` new cycles have begun; ticked at the end of each cycle it does
report finished. A tick completes a cycle exactly when the duration has elapsed (or is
not positive), and a new cycle begins with progress `0`. With
`RepeatCount = AnimationRepeatForever` no tick ever reports finished. -/
theorem repeat_policy {K T : Type} [LinearOrderedField K] (a : Animation K T) (t0 : Int) :
    (∀ n : Nat, a.RepeatCount = (n : Int) → a.AutoReverse = false →
      (∀ nows : List Int,
        cyclesCompleted (runTicks a (Run.started t0) nows) ≤ n + 1 ∧
        cyclesRestarted (runTicks a (Run.started t0) nows) ≤ n ∧
        (reportsFinished (runTicks a (Run.started t0) nows) = true ↔
          cyclesCompleted (runTicks a (Run.started t0) nows) = n + 1) ∧
        (reportsFinished (runTicks a (Run.started t0) nows) = true →
          cyclesRestarted (runTicks a (Run.started t0) nows) = n) ∧
        (∀ res ∈ runTicks a (Run.started t0) nows, res.run.backward = false)) ∧
      reportsFinished (runTicks a (Run.started t0) (cycleEnds a.Duration t0 (n + 1)))
        = true) ∧
    (a.RepeatCount = AnimationRepeatForever →
      ∀ nows : List Int, reportsFinished (runTicks a (Run.started t0) nows) = false) ∧
    (∀ (now : Int) (r : Run),
      ((tick a now r).cycleDone = true ↔
        a.Duration ≤ 0 ∨ a.Duration ≤ now - r.startTime) ∧
      ((tick a now r).cycleDone = true → (tick a now r).finished = false →
        0 < a.Duration → linearProgress a now (tick a now r).run = (0 : K))) := by
  refine ⟨?_, fun h nows => runTicks_forever a h nows _, fun now r => ⟨?_, ?_⟩⟩
  · intro n hN hA
    refine ⟨fun nows => ?_, ?_⟩
    · obtain ⟨e1, e2, e3⟩ := runTicks_counts a n hN nows (Run.started t0)
        (by simp [Run.started]) (by simp [Run.started])
      simp only [Run.started, sub_zero] at e1 e2 e3
      simp only [Run.started]
      refine ⟨?_, ?_, ?_, ?_, ?_⟩
      · by_cases hf : reportsFinished (runTicks a ⟨t0, 0, false⟩ nows) = true
        · have := e3.mp hf
          omega
        · rw [if_neg hf] at e1
          omega
      · omega
      · rw [e3]
        omega
      · intro hf
        have := e3.mp hf
        rw [if_pos hf] at e1
        omega
      · exact runTicks_forward a hA nows _ rfl
    · exact runTicks_cycleEnds_finishes a n hN n (Run.started t0) (by simp [Run.started])
  · exact tick_cycleDone_iff a now r
  · intro hd hf hpos
    rcases tick_cases a now r with ⟨hd2, _, _⟩ | ⟨_, _, _, hr⟩ | ⟨_, hf2, _, _⟩
    · rw [hd] at hd2
      exact absurd hd2 (by simp)
    · exact linearProgress_after_restart a now _ hpos (by rw [hr])
    · rw [hf] at hf2
      exact absurd hf2 (by simp)
/-- The repeat policy for `Duration = 1000`, `RepeatCount = 2`, started at `0` and ticked
at `500, 1000, 1500, 2000, 3000`: three cycles complete, two new cycles begin and the
last tick reports finished; with `RepeatCount = -1` the ticks `1000, 2000, 3000` never
report finished. -/
theorem repeat_policy_witness :
    (({ Duration := 1000, RepeatCount := 2, Tick := () } : Animation ℚ Unit).RepeatCount
        = ((2 : Nat) : Int) ∧
      ({ Duration := 1000, RepeatCount := 2, Tick := () } : Animation ℚ Unit).AutoReverse
        = false ∧
      reportsFinished (runTicks
        ({ Duration := 1000, RepeatCount := 2, Tick := () } : Animation ℚ Unit)
        (Run.started 0) [500, 1000, 1500, 2000, 3000]) = true ∧
      cyclesCompleted (runTicks
        ({ Duration := 1000, RepeatCount := 2, Tick := () } : Animation ℚ Unit)
        (Run.started 0) [500, 1000, 1500, 2000, 3000]) = 2 + 1 ∧
      cyclesRestarted (runTicks
        ({ Duration := 1000, RepeatCount := 2, Tick := () } : Animation ℚ Unit)
        (Run.started 0) [500, 1000, 1500, 2000, 3000]) = 2) ∧
    (({ Duration := 1000, RepeatCount := -1, Tick := () } : Animation ℚ Unit).RepeatCount
        = AnimationRepeatForever ∧
      reportsFinished (runTicks
        ({ Duration := 1000, RepeatCount := -1, Tick := () } : Animation ℚ Unit)
        (Run.started 0) [1000, 2000, 3000]) = false) := by
  have hfin : reportsFinished (runTicks
      ({ Duration := 1000, RepeatCount := 2, Tick := () } : Animation ℚ Unit)
      (Run.started 0) [500, 1000, 1500, 2000, 3000]) = true := by
    simp [reportsFinished, runTicks, tick, linearProgress, Run.started, curveInUse,
      AnimationRepeatForever]
    norm_num
  have h := ((repeat_policy
    ({ Duration := 1000, RepeatCount := 2, Tick := () } : Animation ℚ Unit) 0).1 2 rfl rfl).1
    [500, 1000, 1500, 2000, 3000]
  exact ⟨⟨rfl, rfl, hfin, h.2.2.1.mp hfin, h.2.2.2.1 hfin⟩,
    ⟨rfl, (repeat_policy
      ({ Duration := 1000, RepeatCount := -1, Tick := () } : Animation ℚ Unit) 0).2.1 rfl
      [1000, 2000, 3000]⟩⟩

/-! ### C20: the curve selector of the demo -/

theorem quinticEaseOut_ne_sineEaseOut :
    (AnimationQuinticEaseOut : AnimationCurve ℝ) ≠ AnimationSineEaseOut realMath := by
  intro h
  have h3 := congrFun h (1 / 3)
  have e : (1 / 3 : ℝ) * (Real.pi / 2) = Real.pi / 6 := by ring
  simp only [AnimationQuinticEaseOut, AnimationSineEaseOut, finiteCurve,
    animationQuinticEaseOut, animationSineEaseOut, realMath, e, Real.sin_pi_div_six,
    Option.some.injEq] at h3
  norm_num at h3

/-- C20 on the code. For the entry "Sine" the selector gives `a0` the curve
`AnimationQuinticEaseOut` and `a3` the curve `AnimationSineEaseOut`, which are different
curves; for each of the other eleven entries `a0` and `a3` both get the EaseOut variant
of the selected family. -/
theorem curveSelected_sine_assigns_quintic {T : Type} (x a1 a2 a3 : Animation ℝ T) :
    ((curveSelected realMath "Sine" ⟨some x, a1, a2, a3⟩).a0
        = some { x with Curve := some AnimationQuinticEaseOut } ∧
      (curveSelected realMath "Sine" ⟨some x, a1, a2, a3⟩).a3.Curve
        = some (AnimationSineEaseOut realMath) ∧
      easeOutOf realMath "Sine" = some (AnimationSineEaseOut realMath) ∧
      (AnimationQuinticEaseOut : AnimationCurve ℝ) ≠ AnimationSineEaseOut realMath) ∧
    ∀ value ∈ curveNames, value ≠ "Sine" →
      ∃ c : AnimationCurve ℝ, easeOutOf realMath value = some c ∧
        (curveSelected realMath value ⟨some x, a1, a2, a3⟩).a0
          = some { x with Curve := some c } ∧
        (curveSelected realMath value ⟨some x, a1, a2, a3⟩).a3.Curve = some c := by
  refine ⟨⟨rfl, rfl, rfl, quinticEaseOut_ne_sineEaseOut⟩, ?_⟩
  intro value hv hne
  simp only [curveNames, List.mem_cons, List.mem_singleton, List.not_mem_nil, or_false] at hv
  rcases hv with rfl | rfl | rfl | rfl | rfl | rfl | rfl | rfl | rfl | rfl | rfl | rfl
  all_goals first
    | exact ⟨_, rfl, rfl, rfl⟩
    | exact absurd rfl hne

/-- The selector at the entry "Back": `a0` and `a3` both get `AnimationBackEaseOut`. -/
theorem curveSelected_sine_assigns_quintic_witness :
    "Back" ∈ curveNames ∧ "Back" ≠ "Sine" ∧
    ∃ c : AnimationCurve ℝ, easeOutOf realMath "Back" = some c ∧
      (curveSelected realMath "Back"
        (⟨some { Tick := () }, { Tick := () }, { Tick := () }, { Tick := () }⟩ :
          CurveDemo ℝ Unit)).a0 = some { Curve := some c, Tick := () } ∧
      (curveSelected realMath "Back"
        (⟨some { Tick := () }, { Tick := () }, { Tick := () }, { Tick := () }⟩ :
          CurveDemo ℝ Unit)).a3.Curve = some c :=
  ⟨by decide, by decide,
    (@curveSelected_sine_assigns_quintic Unit { Tick := () } { Tick := () }
      { Tick := () } { Tick := () }).2 "Back" (by decide) (by decide)⟩

end Properties

end Fyne
